/-
  Verification of the stdem enum-map library (src/src/stdem.c, src/include/stdem.h).

  Shallow embedding notes:
  * `size_t` / `uint32_t` quantities are modelled as `Nat`, with `% 2^32`
    made explicit where the C code truncates to 32 bits.
  * C `int` keys are modelled as `Int`; the `(uint32_t)value` conversion in
    `stem_hash_int` is `value mod 2^32` (two's complement reinterpretation).
  * The entry's `void* value` field is modelled by `StoredVal`: either the
    raw caller pointer (`ref p`, with `p = 0` for NULL) or an owned byte
    copy (`copyv bytes`).  A caller-supplied value argument is modelled as
    the pair (pointer `ptr : Nat`, pointee content `bytes : List Nat`);
    `memcpy(entry->value, value, value_size)` becomes taking the first
    `value_size` pointee bytes.
  * Names (C strings) are modelled as `Option (List Nat)` (NUL-free byte
    lists); `strdup` preserves the content exactly.
  * The float comparison `(float)count / num_buckets > 0.75` is modelled by
    the exact rational test `4 * count > 3 * num_buckets`: 0.75 is exactly
    representable and the comparison agrees with the rational one for all
    table sizes below 2^24, far beyond any size the claims exercise.
    Likewise `(size_t)(enum_count / 0.75) + 1` is the exact
    `(4 * enum_count) / 3 + 1` (Nat division) and
    `enum_count > 16 * 0.75` is `enum_count > 12`, exact in double for all
    counts below 2^50.
  * Allocation failure (`malloc`/`calloc`/`strdup` returning NULL) is
    modelled by an explicit `AllocPlan` oracle in the `_a` variants; the
    plain definitions are the all-allocations-succeed executions.
  * `FILE*` streams are modelled as token lists (`List Tok`), one token per
    `fwrite`/`fread` call of the C code, preserving the field order and the
    `uint16_t` truncation of name lengths.
-/
import Mathlib

namespace Stdem

/-! ## Data model (stdem.h / stdem.c internal structures) -/

/-- Error codes `StemError` from stdem.h. -/
inductive StemError where
  | success
  | invalidArg
  | outOfMemory
  | indexOutOfBounds
  | notFound
  | alreadyExists
  | uninitialized
deriving DecidableEq, Repr

/-- Flag bit values of `StemFlags` from stdem.h (`STEM_FLAGS_NO_NAMES = 1 << 0`,
`STEM_FLAGS_READONLY = 1 << 1`, `STEM_FLAGS_COPY_VALUES = 1 << 2`). -/
def STEM_FLAGS_NO_NAMES : Nat := 1

def STEM_FLAGS_READONLY : Nat := 2

def STEM_FLAGS_COPY_VALUES : Nat := 4

/-- The `void* value` field of an `EnumEntry`: either the raw caller pointer
(`ref p`, `p = 0` meaning NULL) or an owned copy of `value_size` bytes. -/
inductive StoredVal where
  | ref (p : Nat)
  | copyv (bytes : List Nat)
deriving DecidableEq, Repr

/-- Structure `EnumEntry` from stdem.c (the `next` chain pointer is represented by the
position in the bucket's list). -/
structure EnumEntry where
  enum_value : Int
  name : Option (List Nat)
  value : StoredVal
deriving DecidableEq, Repr

/-- Structure `struct EnumMap` from stdem.c.  `buckets` is the bucket array, each
bucket being its chain head-to-tail; the `mutex` field (a no-op hook) is
omitted. -/
structure EnumMap where
  count : Nat
  value_size : Nat
  flags : Nat
  buckets : List (List EnumEntry)
  num_buckets : Nat
deriving DecidableEq, Repr

/-- Constant `STEM_DEFAULT_BUCKETS` from stdem.c. -/
def STEM_DEFAULT_BUCKETS : Nat := 16

/-! ## Hashing -/

/-- Function `stem_hash_int`: `(uint32_t)value * 2654435761U` with 32-bit wraparound. -/
def stem_hash_int (value : Int) : Nat :=
  (value % (2 ^ 32 : Int)).toNat * 2654435761 % 2 ^ 32

/-- The bucket index of a key: `hash % map->num_buckets`. -/
def bucketIdx (nb : Nat) (k : Int) : Nat :=
  stem_hash_int k % nb

/-! ## Internal map operations -/

/-- All live entries in bucket-then-chain order (the iteration order used by
`stem_resize_map`, `stdem_foreach`, `stdem_copy`, `stdem_merge`,
`stdem_serialize`). -/
def entriesList (m : EnumMap) : List EnumEntry :=
  m.buckets.flatten

/-- Function `stem_find_entry`: walk the chain of the key's bucket. -/
def stem_find_entry (m : EnumMap) (k : Int) : Option EnumEntry :=
  (m.buckets.getD (bucketIdx m.num_buckets k) []).find?
    (fun e => e.enum_value == k)

/-- Prepend entry `e` to its bucket in the array `bs` (the
`entry->next = new_buckets[idx]; new_buckets[idx] = entry;` pattern). -/
def bucketInsert (nb : Nat) (bs : List (List EnumEntry)) (e : EnumEntry) :
    List (List EnumEntry) :=
  bs.set (bucketIdx nb e.enum_value) (e :: bs.getD (bucketIdx nb e.enum_value) [])

/-- The rehash loop of `stem_resize_map`: every entry, in bucket-then-chain
order, is prepended into its new bucket of a fresh `calloc`ed array. -/
def reinsertAll (es : List EnumEntry) (nb : Nat) : List (List EnumEntry) :=
  es.foldl (bucketInsert nb) (List.replicate nb [])

/-- Function `stem_resize_map` (all-allocations-succeed execution). -/
def stem_resize_map (m : EnumMap) (new_size : Nat) : StemError × EnumMap :=
  if new_size = 0 then (StemError.invalidArg, m)
  else (StemError.success,
    { m with buckets := reinsertAll (entriesList m) new_size,
             num_buckets := new_size })

/-- Function `stem_create_entry` (all-allocations-succeed execution).  The value is
copied iff `value_size > 0` and the caller pointer is non-NULL; the name is
duplicated iff it is non-NULL and the NO_NAMES flag is clear. -/
def stem_create_entry (m : EnumMap) (k : Int) (ptr : Nat) (bytes : List Nat)
    (name : Option (List Nat)) : EnumEntry :=
  { enum_value := k
  , value := if 0 < m.value_size ∧ ptr ≠ 0
      then StoredVal.copyv (bytes.take m.value_size)
      else StoredVal.ref ptr
  , name := if name.isSome ∧ m.flags &&& STEM_FLAGS_NO_NAMES = 0
      then name else none }

/-! ## Public operations -/

/-- Function `stdem_create_ex` (all-allocations-succeed execution).  The
`enum_count > STEM_MAX_ENTRIES` test is vacuous for `size_t` and omitted. -/
def stdem_create_ex (enum_count value_size flags : Nat) :
    Except StemError EnumMap :=
  if enum_count = 0 then Except.error StemError.invalidArg
  else
    -- `enum_count > num_buckets * STEM_LOAD_FACTOR` with num_buckets = 16
    let nb := if 12 < enum_count
      then 4 * enum_count / 3 + 1  -- (size_t)(enum_count / 0.75) + 1
      else STEM_DEFAULT_BUCKETS
    Except.ok
      { count := 0, value_size := value_size, flags := flags
      , buckets := List.replicate nb [], num_buckets := nb }

/-- Prepend a freshly created entry to its bucket and bump `count` (the tail
of a successful `stdem_associate_ex`). -/
def insertEntry (m : EnumMap) (e : EnumEntry) : EnumMap :=
  { m with buckets := bucketInsert m.num_buckets m.buckets e
         , count := m.count + 1 }

/-- Function `stdem_associate_ex` (all-allocations-succeed execution). -/
def stdem_associate_ex (m : EnumMap) (k : Int) (ptr : Nat) (bytes : List Nat)
    (name : Option (List Nat)) : StemError × EnumMap :=
  if m.flags &&& STEM_FLAGS_READONLY ≠ 0 then (StemError.invalidArg, m)
  else if (stem_find_entry m k).isSome then (StemError.alreadyExists, m)
  else
    let r := if 4 * m.count > 3 * m.num_buckets
      then stem_resize_map m (m.num_buckets * 2)
      else (StemError.success, m)
    if r.1 ≠ StemError.success then (r.1, r.2)
    else (StemError.success, insertEntry r.2 (stem_create_entry r.2 k ptr bytes name))

/-- Function `stdem_get_value_ex`: the error result and the returned value. -/
def stdem_get_value_ex (m : EnumMap) (k : Int) : StemError × Option StoredVal :=
  match stem_find_entry m k with
  | none => (StemError.notFound, none)
  | some e => (StemError.success, some e.value)

/-- Function `stdem_get_name_ex`: NO_NAMES short-circuits to NOT_FOUND before any
lookup; otherwise the entry's (possibly NULL) name is returned. -/
def stdem_get_name_ex (m : EnumMap) (k : Int) : StemError × Option (List Nat) :=
  if m.flags &&& STEM_FLAGS_NO_NAMES ≠ 0 then (StemError.notFound, none)
  else
    match stem_find_entry m k with
    | none => (StemError.notFound, none)
    | some e => (StemError.success, e.name)

/-- Function `stdem_count`. -/
def stdem_count (m : EnumMap) : Nat := m.count

/-- Function `stdem_clear`: every bucket head is reset to NULL and `count` to 0. -/
def stdem_clear (m : EnumMap) : StemError × EnumMap :=
  if m.flags &&& STEM_FLAGS_READONLY ≠ 0 then (StemError.invalidArg, m)
  else (StemError.success,
    { m with buckets := m.buckets.map (fun _ => []), count := 0 })

/-- The pointer argument `stdem_copy`/`stdem_merge` pass back into
`stdem_associate_ex` for a stored value: the owned copy buffer is some
non-NULL heap address (stand-in 1); a stored reference is the reference
itself. -/
def valPtr : StoredVal → Nat
  | StoredVal.copyv _ => 1
  | StoredVal.ref p => p

/-- The pointee bytes behind `valPtr`: the owned copy's content.  For a
stored reference the pointee is caller memory, which the library itself only
dereferences in copy mode (where references other than NULL never occur in
well-formed maps); it is modelled as `[]`. -/
def valBytes : StoredVal → List Nat
  | StoredVal.copyv bs => bs
  | StoredVal.ref _ => []

/-- One replay step of `stdem_copy`/`stdem_merge`/`stdem_deserialize`:
`stdem_associate_ex(new_map, entry->enum_value, entry->value, entry->name)`. -/
def replayAssoc (m : EnumMap) (e : EnumEntry) : StemError × EnumMap :=
  stdem_associate_ex m e.enum_value (valPtr e.value) (valBytes e.value) e.name

/-- The entry-replay loop of `stdem_copy` (and phase 1 of `stdem_merge`):
first failure aborts. -/
def copyLoop : EnumMap → List EnumEntry → Except StemError EnumMap
  | m, [] => Except.ok m
  | m, e :: es =>
    match replayAssoc m e with
    | (StemError.success, m2) => copyLoop m2 es
    | (err, _) => Except.error err

/-- Function `stdem_copy`. -/
def stdem_copy (m : EnumMap) : Except StemError EnumMap :=
  match stdem_create_ex m.count m.value_size m.flags with
  | Except.error e => Except.error e
  | Except.ok m0 => copyLoop m0 (entriesList m)

/-- Replace the first entry with key `k` in a chain by `f` of it (the
in-place mutation of `existing` in `stdem_merge`'s overwrite branch). -/
def replaceFirst (l : List EnumEntry) (k : Int) (f : EnumEntry → EnumEntry) :
    List EnumEntry :=
  match l with
  | [] => []
  | e :: es => if e.enum_value == k then f e :: es else e :: replaceFirst es k f

/-- Apply `f` to the (first) entry with key `k` inside its bucket. -/
def updateAt (m : EnumMap) (k : Int) (f : EnumEntry → EnumEntry) : EnumMap :=
  { m with
    buckets := m.buckets.set (bucketIdx m.num_buckets k)
      (replaceFirst (m.buckets.getD (bucketIdx m.num_buckets k) []) k f) }

/-- The overwrite of an existing entry in `stdem_merge`: the value is
byte-copied (copy mode) or pointer-replaced (reference mode), the name freed
and re-duplicated from the source entry (or cleared). -/
def mergeOverwriteEntry (vs fl : Nat) (src dst : EnumEntry) : EnumEntry :=
  { dst with
    value := if 0 < vs then StoredVal.copyv ((valBytes src.value).take vs)
             else src.value
  , name := if src.name.isSome ∧ fl &&& STEM_FLAGS_NO_NAMES = 0
      then src.name else none }

/-- Phase 2 of `stdem_merge`: each entry of `map2` is inserted if its key is
absent, else skipped (`overwrite = false`) or overwritten in place
(`overwrite = true`). -/
def mergeLoop2 (ow : Bool) : EnumMap → List EnumEntry → Except StemError EnumMap
  | m, [] => Except.ok m
  | m, e :: es =>
    match stem_find_entry m e.enum_value with
    | some _ =>
      if ow then
        mergeLoop2 ow (updateAt m e.enum_value
          (mergeOverwriteEntry m.value_size m.flags e)) es
      else mergeLoop2 ow m es
    | none =>
      match replayAssoc m e with
      | (StemError.success, m2) => mergeLoop2 ow m2 es
      | (err, _) => Except.error err

/-- Function `stdem_merge` (all-allocations-succeed execution; the name `strdup` in
the overwrite branch cannot fail here). -/
def stdem_merge (m1 m2 : EnumMap) (ow : Bool) : Except StemError EnumMap :=
  if m1.value_size ≠ m2.value_size then Except.error StemError.invalidArg
  else
    match stdem_create_ex (m1.count + m2.count) m1.value_size
        (m1.flags ||| m2.flags) with
    | Except.error e => Except.error e
    | Except.ok m0 =>
      match copyLoop m0 (entriesList m1) with
      | Except.error e => Except.error e
      | Except.ok mA => mergeLoop2 ow mA (entriesList m2)

/-! ## Serialization (token-per-fwrite stream model) -/

/-- One stream token per `fwrite`/`fread` call of stdem.c. -/
inductive Tok where
  | u32 (n : Nat)
  | u16 (n : Nat)
  | usize (n : Nat)
  | flagsT (n : Nat)
  | intT (k : Int)
  | bytes (bs : List Nat)
  | ptrT (p : Nat)
deriving DecidableEq, Repr

/-- The magic constant `0x454E554D` ('ENUM'). -/
def STEM_MAGIC : Nat := 0x454E554D

/-- The per-entry output of `stdem_serialize`: key, name length (truncated to
`uint16_t` exactly as `(uint16_t)strlen(entry->name)` does), that many name
bytes, then the value: `value_size` owned bytes in copy mode, or the raw
reference bit pattern in reference mode. -/
def encodeEntry (vs : Nat) (e : EnumEntry) : List Tok :=
  let nameLen := match e.name with
    | some s => s.length % 65536
    | none => 0
  [Tok.intT e.enum_value, Tok.u16 nameLen]
    ++ (if 0 < nameLen then [Tok.bytes ((e.name.getD []).take nameLen)] else [])
    ++ (if 0 < vs then [Tok.bytes (valBytes e.value)] else [Tok.ptrT (valPtr e.value)])

/-- Function `stdem_serialize` (stream writes always succeed): header then every
entry in bucket-then-chain order. -/
def stdem_serialize (m : EnumMap) : List Tok :=
  [Tok.u32 STEM_MAGIC, Tok.u16 1, Tok.usize m.count, Tok.usize m.value_size,
   Tok.flagsT m.flags]
    ++ ((entriesList m).map (encodeEntry m.value_size)).flatten

/-- The name-reading step of one `stdem_deserialize` iteration: a `name_len`
of 0 means a NULL name, otherwise exactly `name_len` bytes are read (a short
read fails with `InvalidArgument`). -/
def readName (nlen : Nat) (st : List Tok) :
    Except StemError (Option (List Nat) × List Tok) :=
  if 0 < nlen then
    match st with
    | Tok.bytes bs :: st3 =>
      if bs.length = nlen then Except.ok (some bs, st3)
      else Except.error StemError.invalidArg
    | _ => Except.error StemError.invalidArg
  else Except.ok (none, st)

/-- The value-reading step of one `stdem_deserialize` iteration: `value_size`
bytes in copy mode (passed via a fresh non-NULL buffer), the raw reference
bit pattern in reference mode. -/
def readValue (vs : Nat) (st : List Tok) :
    Except StemError (Nat × List Nat × List Tok) :=
  if 0 < vs then
    match st with
    | Tok.bytes bs :: st4 =>
      if bs.length = vs then Except.ok (1, bs, st4)
      else Except.error StemError.invalidArg
    | _ => Except.error StemError.invalidArg
  else
    match st with
    | Tok.ptrT p :: st4 => Except.ok (p, [], st4)
    | _ => Except.error StemError.invalidArg

/-- The entry-reading loop of `stdem_deserialize`: `count` iterations, each
reading key, name length, name bytes, value bytes (length checks model the
short-read checks), then calling `stdem_associate_ex`. -/
def parseEntries : Nat → EnumMap → Nat → List Tok → Except StemError EnumMap
  | 0, m, _, _ => Except.ok m
  | n + 1, m, vs, st =>
    match st with
    | Tok.intT k :: Tok.u16 nlen :: st2 =>
      match readName nlen st2 with
      | Except.error e => Except.error e
      | Except.ok (name, st3) =>
        match readValue vs st3 with
        | Except.error e => Except.error e
        | Except.ok (ptr, bytes, st4) =>
          match stdem_associate_ex m k ptr bytes name with
          | (StemError.success, m2) => parseEntries n m2 vs st4
          | (err, _) => Except.error err
    | _ => Except.error StemError.invalidArg

/-- Function `stdem_deserialize` (all-allocations-succeed execution): validate header,
create the map, replay `count` entries. -/
def stdem_deserialize (st : List Tok) : Except StemError EnumMap :=
  match st with
  | Tok.u32 mg :: Tok.u16 ver :: Tok.usize cnt :: Tok.usize vs ::
      Tok.flagsT fl :: rest =>
    if mg ≠ STEM_MAGIC then Except.error StemError.invalidArg
    else if ver ≠ 1 then Except.error StemError.invalidArg
    else
      match stdem_create_ex cnt vs fl with
      | Except.error e => Except.error e
      | Except.ok m => parseEntries cnt m vs rest
  | _ => Except.error StemError.invalidArg

/-! ## Allocation-oracle variants (for the OutOfMemory rollback claim) -/

/-- Which allocations succeed during one `stdem_associate_ex` call:
the resize's `calloc`, the entry `malloc`, the value-copy `malloc`, and the
name `strdup`. -/
structure AllocPlan where
  resizeOk : Bool
  entryOk : Bool
  valueOk : Bool
  nameOk : Bool
deriving DecidableEq, Repr

/-- Function `stem_resize_map` with its `calloc` possibly failing. -/
def stem_resize_map_a (pl : AllocPlan) (m : EnumMap) (new_size : Nat) :
    StemError × EnumMap :=
  if new_size = 0 then (StemError.invalidArg, m)
  else if pl.resizeOk = false then (StemError.outOfMemory, m)
  else (StemError.success,
    { m with buckets := reinsertAll (entriesList m) new_size,
             num_buckets := new_size })

/-- Function `stem_create_entry` with its allocations possibly failing; the failure
paths free everything allocated so far and report OOM. -/
def stem_create_entry_a (pl : AllocPlan) (m : EnumMap) (k : Int) (ptr : Nat)
    (bytes : List Nat) (name : Option (List Nat)) : StemError × Option EnumEntry :=
  if pl.entryOk = false then (StemError.outOfMemory, none)
  else if 0 < m.value_size ∧ ptr ≠ 0 ∧ pl.valueOk = false then
    (StemError.outOfMemory, none)
  else if name.isSome ∧ m.flags &&& STEM_FLAGS_NO_NAMES = 0 ∧ pl.nameOk = false then
    (StemError.outOfMemory, none)
  else (StemError.success, some (stem_create_entry m k ptr bytes name))

/-- Function `stdem_associate_ex` with the allocation oracle.  On a resize failure the
error is returned with the map untouched; on an entry-construction failure
the error is returned with the map as left by the (possibly completed)
resize. -/
def stdem_associate_a (pl : AllocPlan) (m : EnumMap) (k : Int) (ptr : Nat)
    (bytes : List Nat) (name : Option (List Nat)) : StemError × EnumMap :=
  if m.flags &&& STEM_FLAGS_READONLY ≠ 0 then (StemError.invalidArg, m)
  else if (stem_find_entry m k).isSome then (StemError.alreadyExists, m)
  else
    let r := if 4 * m.count > 3 * m.num_buckets
      then stem_resize_map_a pl m (m.num_buckets * 2)
      else (StemError.success, m)
    if r.1 ≠ StemError.success then (r.1, r.2)
    else
      match stem_create_entry_a pl r.2 k ptr bytes name with
      | (StemError.success, some e) => (StemError.success, insertEntry r.2 e)
      | (err, _) => (err, r.2)

/-! ## Specification-side definitions -/

/-- Map states reachable through the public API (every mutating operation is
applied in its returned form; failing calls return the map unchanged). -/
inductive Reachable : EnumMap → Prop where
  | created : ∀ (n vs fl : Nat) (m : EnumMap),
      stdem_create_ex n vs fl = Except.ok m → Reachable m
  | associated : ∀ (m : EnumMap) (k : Int) (ptr : Nat) (bytes : List Nat)
      (name : Option (List Nat)), Reachable m →
      Reachable (stdem_associate_ex m k ptr bytes name).2
  | cleared : ∀ (m : EnumMap), Reachable m → Reachable (stdem_clear m).2
  | copied : ∀ (m m2 : EnumMap), Reachable m →
      stdem_copy m = Except.ok m2 → Reachable m2
  | merged : ∀ (m1 m2 m3 : EnumMap) (ow : Bool), Reachable m1 → Reachable m2 →
      stdem_merge m1 m2 ow = Except.ok m3 → Reachable m3
  | deserialized : ∀ (st : List Tok) (m : EnumMap),
      stdem_deserialize st = Except.ok m → Reachable m

/-- The value shapes that occur in maps built through the API (with the C
caller contract that a non-NULL value buffer holds at least `value_size`
bytes): a raw reference in reference mode; in copy mode either NULL (stored
as-is when the caller passes a NULL value) or an owned copy of exactly
`value_size` bytes. -/
def ValWF (vs : Nat) (v : StoredVal) : Prop :=
  if vs = 0 then ∃ p, v = StoredVal.ref p
  else v = StoredVal.ref 0 ∨ ∃ bs, v = StoredVal.copyv bs ∧ bs.length = vs

/-! ## Concrete states for witnesses and counterexamples (test scaffolding) -/

/-- Unwrap a creation result (scaffolding for concrete test states). -/
def mapOrEmpty (r : Except StemError EnumMap) : EnumMap :=
  match r with
  | Except.ok m => m
  | Except.error _ =>
    { count := 0, value_size := 0, flags := 0, buckets := [], num_buckets := 0 }

/-- Associate a list of keys in order, value NULL, no names (scaffolding). -/
def assocAll (m : EnumMap) : List Int → EnumMap
  | [] => m
  | k :: ks => assocAll (stdem_associate_ex m k 0 [] none).2 ks

/-- A fresh map created with capacity hint 5 (16 buckets). -/
def c1_base : EnumMap := mapOrEmpty (stdem_create_ex 5 0 0)

/-- State `c1_base` after associating keys 0..11: 12 entries in 16 buckets, load
exactly 0.75. -/
def c1_m12 : EnumMap := assocAll c1_base ((List.range 12).map Int.ofNat)

/-- State `c1_base` after associating keys 0..12: 13 entries in 16 buckets. -/
def c1_m13 : EnumMap := assocAll c1_base ((List.range 13).map Int.ofNat)

/-- Allocation oracle where only the name `strdup` fails. -/
def planNameFail : AllocPlan :=
  { resizeOk := true, entryOk := true, valueOk := true, nameOk := false }

/-- A fresh copy-mode map (value size 1). -/
def cm7_base : EnumMap := mapOrEmpty (stdem_create_ex 1 1 0)

/-- State `cm7_base` with one entry: key 0, value byte 7, empty-string name. -/
def cm7 : EnumMap := (stdem_associate_ex cm7_base 0 1 [7] (some [])).2

/-- A fresh reference-mode map. -/
def w_base : EnumMap := mapOrEmpty (stdem_create_ex 1 0 0)

/-- State `w_base` with the single key 5. -/
def w_one : EnumMap := (stdem_associate_ex w_base 5 0 [] none).2

/-- A fresh reference-mode map with the CopyValues flag set. -/
def wC9_base : EnumMap := mapOrEmpty (stdem_create_ex 1 0 STEM_FLAGS_COPY_VALUES)

/-- A fresh map created with the NoNames flag. -/
def wC8_base : EnumMap := mapOrEmpty (stdem_create_ex 1 0 STEM_FLAGS_NO_NAMES)

/-- State `cm7_base` with one entry: key 0, value byte 9, no name. -/
def c6B : EnumMap := (stdem_associate_ex cm7_base 0 1 [9] none).2

/-- State `cm7_base` with one entry: key 0, value byte 7, one-byte name. -/
def wit7 : EnumMap := (stdem_associate_ex cm7_base 0 1 [7] (some [65])).2

end Stdem

namespace Stdem

/-! ## Well-formedness of a map state -/

/-- Every entry of every bucket sits in the bucket its key hashes to. -/
def placedOK (nb : Nat) (bs : List (List EnumEntry)) : Prop :=
  ∀ i, (h : i < bs.length) → ∀ e ∈ bs[i], bucketIdx nb e.enum_value = i

/-- The keys of all live entries, in iteration order. -/
def keysList (m : EnumMap) : List Int :=
  (entriesList m).map (fun e => e.enum_value)

/-- Structural well-formedness: the invariants every map reachable through
the API maintains (bucket-array length, entry placement, key uniqueness,
count consistency). -/
structure WFMap (m : EnumMap) : Prop where
  hlen : m.buckets.length = m.num_buckets
  hpos : 0 < m.num_buckets
  hplaced : placedOK m.num_buckets m.buckets
  hdist : (entriesList m).Pairwise (fun a b => a.enum_value ≠ b.enum_value)
  hcount : m.count = (entriesList m).length

theorem bucketIdx_lt (nb : Nat) (k : Int) (h : 0 < nb) : bucketIdx nb k < nb :=
  Nat.mod_lt _ h

theorem flatten_replicate_nil {α : Type} (n : Nat) :
    (List.replicate n ([] : List α)).flatten = [] := by
  induction n with
  | zero => rfl
  | succ n ih => simp [List.replicate_succ, ih]

theorem set_self {α : Type} (l : List α) (i : Nat) (h : i < l.length) :
    l.set i l[i] = l := by
  induction l generalizing i with
  | nil => simp at h
  | cons a t ih =>
    cases i with
    | zero => rfl
    | succ j => simpa [List.set] using ih j (by simpa using h)

theorem getD_replicate_nil {α : Type} (n i : Nat) :
    (List.replicate n ([] : List α)).getD i [] = [] := by
  rcases Nat.lt_or_ge i n with h | h
  · rw [List.getD_eq_getElem _ _ (by simpa using h)]
    exact List.getElem_replicate ..
  · rw [List.getD_eq_default]
    simpa using h

/-- Keys never collide in a well-formed map: two live entries with the same
key are the same entry. -/
theorem key_unique {m : EnumMap} (w : WFMap m) {a b : EnumEntry}
    (ha : a ∈ entriesList m) (hb : b ∈ entriesList m)
    (hk : a.enum_value = b.enum_value) : a = b := by
  by_contra hne
  have hsym : Symmetric (fun a b : EnumEntry => a.enum_value ≠ b.enum_value) :=
    fun _ _ h hk => h hk.symm
  exact (w.hdist.forall hsym ha hb hne) hk

/-- Lookup `stem_find_entry` finds exactly the unique live entry with the key. -/
theorem find_eq_some_iff {m : EnumMap} (w : WFMap m) {k : Int} {e : EnumEntry} :
    stem_find_entry m k = some e ↔ e ∈ entriesList m ∧ e.enum_value = k := by
  constructor
  · intro h
    have hmem : e ∈ m.buckets.getD (bucketIdx m.num_buckets k) [] :=
      List.mem_of_find?_eq_some h
    have hkey : e.enum_value = k := by
      have := List.find?_some h
      simpa using this
    have hidx : bucketIdx m.num_buckets k < m.buckets.length := by
      rw [w.hlen]; exact bucketIdx_lt _ _ w.hpos
    rw [List.getD_eq_getElem _ _ hidx] at hmem
    refine ⟨List.mem_flatten.2 ⟨_, ?_, hmem⟩, hkey⟩
    exact List.getElem_mem hidx
  · rintro ⟨hmem, hkey⟩
    obtain ⟨l, hl, hel⟩ := List.mem_flatten.1 hmem
    obtain ⟨j, hj, rfl⟩ := List.mem_iff_getElem.1 hl
    have hplace := w.hplaced j hj e hel
    have hidx : bucketIdx m.num_buckets k < m.buckets.length := by
      rw [w.hlen]; exact bucketIdx_lt _ _ w.hpos
    have hjk : j = bucketIdx m.num_buckets k := by rw [← hplace, hkey]
    subst hjk
    have hsome : (stem_find_entry m k).isSome = true := by
      unfold stem_find_entry
      rw [List.getD_eq_getElem _ _ hj]
      exact List.find?_isSome.2 ⟨e, hel, by simpa using hkey⟩
    obtain ⟨a, ha⟩ := Option.isSome_iff_exists.1 hsome
    have hamem : a ∈ entriesList m ∧ a.enum_value = k := by
      have hmem2 : a ∈ m.buckets.getD (bucketIdx m.num_buckets k) [] :=
        List.mem_of_find?_eq_some ha
      have hkey2 : a.enum_value = k := by simpa using List.find?_some ha
      rw [List.getD_eq_getElem _ _ hj] at hmem2
      exact ⟨List.mem_flatten.2 ⟨_, List.getElem_mem hj, hmem2⟩, hkey2⟩
    have : a = e := key_unique w hamem.1 hmem (hamem.2.trans hkey.symm)
    rwa [this] at ha

/-- Lookup `stem_find_entry` returns NULL exactly when no live entry has the key. -/
theorem find_eq_none_iff {m : EnumMap} (w : WFMap m) {k : Int} :
    stem_find_entry m k = none ↔ ∀ e ∈ entriesList m, e.enum_value ≠ k := by
  constructor
  · intro h e hmem hkey
    have : stem_find_entry m k = some e := (find_eq_some_iff w).2 ⟨hmem, hkey⟩
    rw [h] at this; cases this
  · intro h
    cases hf : stem_find_entry m k with
    | none => rfl
    | some e =>
      have := (find_eq_some_iff w).1 hf
      exact absurd this.2 (h e this.1)

theorem find_of_mem {m : EnumMap} (w : WFMap m) {e : EnumEntry}
    (h : e ∈ entriesList m) : stem_find_entry m e.enum_value = some e :=
  (find_eq_some_iff w).2 ⟨h, rfl⟩

end Stdem

namespace Stdem

/-! ## Prepending an entry into a bucket array -/

theorem length_bucketInsert (nb : Nat) (bs : List (List EnumEntry))
    (e : EnumEntry) : (bucketInsert nb bs e).length = bs.length :=
  List.length_set ..

theorem flatten_set_cons {α : Type} (bs : List (List α)) (i : Nat)
    (h : i < bs.length) (e : α) :
    (bs.set i (e :: bs[i])).flatten.Perm (e :: bs.flatten) := by
  induction bs generalizing i with
  | nil => simp at h
  | cons hd tl ih =>
    cases i with
    | zero => simp
    | succ n =>
      have hn : n < tl.length := by simpa using h
      simp only [List.set, List.flatten_cons]
      exact ((ih n hn).append_left hd).trans List.perm_middle

theorem flatten_bucketInsert (nb : Nat) (bs : List (List EnumEntry))
    (e : EnumEntry) (h : bucketIdx nb e.enum_value < bs.length) :
    (bucketInsert nb bs e).flatten.Perm (e :: bs.flatten) := by
  unfold bucketInsert
  rw [List.getD_eq_getElem _ _ h]
  exact flatten_set_cons bs _ h e

theorem placed_bucketInsert (nb : Nat) (bs : List (List EnumEntry))
    (e : EnumEntry) (hp : placedOK nb bs)
    (he : bucketIdx nb e.enum_value < bs.length) :
    placedOK nb (bucketInsert nb bs e) := by
  intro i hi x hx
  have hi2 : i < bs.length := by
    simpa [length_bucketInsert] using hi
  by_cases hij : bucketIdx nb e.enum_value = i
  · subst hij
    unfold bucketInsert at hx
    rw [List.getElem_set_self] at hx
    rw [List.getD_eq_getElem _ _ he] at hx
    rcases List.mem_cons.1 hx with rfl | hx2
    · rfl
    · exact hp _ hi2 x hx2
  · unfold bucketInsert at hx
    rw [List.getElem_set_ne hij] at hx
    exact hp _ hi2 x hx

/-! ## The rehash loop of `stem_resize_map` -/

theorem placed_replicate (nb n : Nat) :
    placedOK nb (List.replicate n ([] : List EnumEntry)) := by
  intro i hi x hx
  rw [List.getElem_replicate] at hx
  cases hx

theorem reinsert_go (nb : Nat) (hnb : 0 < nb) :
    ∀ (es : List EnumEntry) (acc : List (List EnumEntry)),
      acc.length = nb → placedOK nb acc →
      (es.foldl (bucketInsert nb) acc).length = nb ∧
      placedOK nb (es.foldl (bucketInsert nb) acc) ∧
      (es.foldl (bucketInsert nb) acc).flatten.Perm (es ++ acc.flatten) := by
  intro es
  induction es with
  | nil => intro acc hl hp; exact ⟨hl, hp, List.Perm.refl _⟩
  | cons e es ih =>
    intro acc hl hp
    have hidx : bucketIdx nb e.enum_value < acc.length := by
      rw [hl]; exact bucketIdx_lt _ _ hnb
    have hl2 : (bucketInsert nb acc e).length = nb := by
      rw [length_bucketInsert]; exact hl
    have hp2 : placedOK nb (bucketInsert nb acc e) :=
      placed_bucketInsert nb acc e hp hidx
    obtain ⟨l3, p3, f3⟩ := ih (bucketInsert nb acc e) hl2 hp2
    refine ⟨l3, p3, ?_⟩
    exact f3.trans
      (((flatten_bucketInsert nb acc e hidx).append_left es).trans List.perm_middle)

theorem reinsertAll_spec (es : List EnumEntry) (nb : Nat) (hnb : 0 < nb) :
    (reinsertAll es nb).length = nb ∧ placedOK nb (reinsertAll es nb) ∧
    (reinsertAll es nb).flatten.Perm es := by
  have := reinsert_go nb hnb es (List.replicate nb [])
    (List.length_replicate ..) (placed_replicate nb nb)
  refine ⟨this.1, this.2.1, ?_⟩
  have := this.2.2
  rwa [flatten_replicate_nil, List.append_nil] at this

/-! ## `stem_resize_map` preserves the map's content -/

theorem resize_fst {m : EnumMap} {ns : Nat} (hns : 0 < ns) :
    (stem_resize_map m ns).1 = StemError.success := by
  unfold stem_resize_map
  rw [if_neg (Nat.pos_iff_ne_zero.1 hns)]

theorem resize_fields {m : EnumMap} {ns : Nat} (hns : 0 < ns) :
    (stem_resize_map m ns).2.count = m.count ∧
    (stem_resize_map m ns).2.value_size = m.value_size ∧
    (stem_resize_map m ns).2.flags = m.flags ∧
    (stem_resize_map m ns).2.num_buckets = ns := by
  unfold stem_resize_map
  rw [if_neg (Nat.pos_iff_ne_zero.1 hns)]
  exact ⟨rfl, rfl, rfl, rfl⟩

theorem resize_entries_perm {m : EnumMap} {ns : Nat} (hns : 0 < ns) :
    (entriesList (stem_resize_map m ns).2).Perm (entriesList m) := by
  unfold stem_resize_map
  rw [if_neg (Nat.pos_iff_ne_zero.1 hns)]
  exact (reinsertAll_spec (entriesList m) ns hns).2.2

theorem resize_wf {m : EnumMap} {ns : Nat} (w : WFMap m) (hns : 0 < ns) :
    WFMap (stem_resize_map m ns).2 := by
  have hperm := resize_entries_perm (m := m) hns
  have hfields := resize_fields (m := m) hns
  unfold stem_resize_map at hperm hfields ⊢
  rw [if_neg (Nat.pos_iff_ne_zero.1 hns)] at hperm hfields ⊢
  refine ⟨?_, hns, ?_, ?_, ?_⟩
  · exact (reinsertAll_spec (entriesList m) ns hns).1
  · exact (reinsertAll_spec (entriesList m) ns hns).2.1
  · exact ((hperm.pairwise_iff (fun hxy h => hxy h.symm)).2 w.hdist)
  · simpa [hperm.length_eq] using w.hcount

theorem resize_find {m : EnumMap} {ns : Nat} (w : WFMap m) (hns : 0 < ns)
    (k : Int) :
    stem_find_entry (stem_resize_map m ns).2 k = stem_find_entry m k := by
  have w2 := resize_wf w hns
  have hperm := resize_entries_perm (m := m) hns
  cases hf : stem_find_entry m k with
  | some e =>
    have := (find_eq_some_iff w).1 hf
    exact (find_eq_some_iff w2).2 ⟨hperm.mem_iff.2 this.1, this.2⟩
  | none =>
    have := (find_eq_none_iff w).1 hf
    exact (find_eq_none_iff w2).2 fun e he => this e (hperm.mem_iff.1 he)

end Stdem

namespace Stdem

/-! ## Inserting a fresh entry (tail of a successful associate) -/

theorem insert_entries_perm {m : EnumMap} (w : WFMap m) (e : EnumEntry) :
    (entriesList (insertEntry m e)).Perm (e :: entriesList m) := by
  have hidx : bucketIdx m.num_buckets e.enum_value < m.buckets.length := by
    rw [w.hlen]; exact bucketIdx_lt _ _ w.hpos
  exact flatten_bucketInsert m.num_buckets m.buckets e hidx

theorem insert_wf {m : EnumMap} (w : WFMap m) {e : EnumEntry}
    (hfresh : stem_find_entry m e.enum_value = none) :
    WFMap (insertEntry m e) := by
  have hidx : bucketIdx m.num_buckets e.enum_value < m.buckets.length := by
    rw [w.hlen]; exact bucketIdx_lt _ _ w.hpos
  have hperm := insert_entries_perm w e
  refine ⟨?_, w.hpos, ?_, ?_, ?_⟩
  · show (bucketInsert m.num_buckets m.buckets e).length = m.num_buckets
    rw [length_bucketInsert]; exact w.hlen
  · exact placed_bucketInsert m.num_buckets m.buckets e w.hplaced hidx
  · refine (hperm.pairwise_iff (fun hxy h => hxy h.symm)).2 ?_
    refine List.pairwise_cons.2 ⟨?_, w.hdist⟩
    intro a ha heq
    exact ((find_eq_none_iff w).1 hfresh a ha) heq.symm
  · show m.count + 1 = (entriesList (insertEntry m e)).length
    rw [hperm.length_eq]
    simp [w.hcount]

theorem insert_find_self {m : EnumMap} (w : WFMap m) {e : EnumEntry}
    (hfresh : stem_find_entry m e.enum_value = none) :
    stem_find_entry (insertEntry m e) e.enum_value = some e := by
  have w2 := insert_wf w hfresh
  exact (find_eq_some_iff w2).2
    ⟨(insert_entries_perm w e).mem_iff.2 (List.mem_cons_self ..), rfl⟩

theorem insert_find_other {m : EnumMap} (w : WFMap m) {e : EnumEntry}
    (hfresh : stem_find_entry m e.enum_value = none) {k2 : Int}
    (hne : k2 ≠ e.enum_value) :
    stem_find_entry (insertEntry m e) k2 = stem_find_entry m k2 := by
  have w2 := insert_wf w hfresh
  have hperm := insert_entries_perm w e
  cases hf : stem_find_entry m k2 with
  | some a =>
    have := (find_eq_some_iff w).1 hf
    exact (find_eq_some_iff w2).2
      ⟨hperm.mem_iff.2 (List.mem_cons_of_mem _ this.1), this.2⟩
  | none =>
    refine (find_eq_none_iff w2).2 fun a ha => ?_
    rcases List.mem_cons.1 (hperm.mem_iff.1 ha) with rfl | ha2
    · exact fun h => hne h.symm
    · exact (find_eq_none_iff w).1 hf a ha2

/-! ## `stdem_associate_ex`: success specification -/

theorem create_entry_congr {m1 m2 : EnumMap} (hvs : m1.value_size = m2.value_size)
    (hfl : m1.flags = m2.flags) (k : Int) (ptr : Nat) (bytes : List Nat)
    (name : Option (List Nat)) :
    stem_create_entry m1 k ptr bytes name = stem_create_entry m2 k ptr bytes name := by
  unfold stem_create_entry
  rw [hvs, hfl]

/-- The full specification of a succeeding `stdem_associate_ex` call on a
well-formed, writable map with a fresh key. -/
theorem associate_ok {m : EnumMap} (w : WFMap m)
    (hro : m.flags &&& STEM_FLAGS_READONLY = 0) {k : Int}
    (hfresh : stem_find_entry m k = none) (ptr : Nat) (bytes : List Nat)
    (name : Option (List Nat)) :
    (stdem_associate_ex m k ptr bytes name).1 = StemError.success ∧
    WFMap (stdem_associate_ex m k ptr bytes name).2 ∧
    (stdem_associate_ex m k ptr bytes name).2.count = m.count + 1 ∧
    (stdem_associate_ex m k ptr bytes name).2.value_size = m.value_size ∧
    (stdem_associate_ex m k ptr bytes name).2.flags = m.flags ∧
    stem_find_entry (stdem_associate_ex m k ptr bytes name).2 k
      = some (stem_create_entry m k ptr bytes name) ∧
    (∀ k2, k2 ≠ k → stem_find_entry (stdem_associate_ex m k ptr bytes name).2 k2
      = stem_find_entry m k2) := by
  have hns : 0 < m.num_buckets * 2 := by
    have := w.hpos; omega
  unfold stdem_associate_ex
  rw [if_neg (by simp [hro])]
  rw [hfresh]
  simp only [Option.isSome_none, Bool.false_eq_true, if_false]
  by_cases hload : 4 * m.count > 3 * m.num_buckets
  · rw [if_pos hload]
    have hfst := resize_fst (m := m) hns
    have hfields := resize_fields (m := m) hns
    have wR : WFMap (stem_resize_map m (m.num_buckets * 2)).2 := resize_wf w hns
    have hfindR : ∀ k2, stem_find_entry (stem_resize_map m (m.num_buckets * 2)).2 k2
        = stem_find_entry m k2 := resize_find w hns
    rw [if_neg (by simp [hfst])]
    have hfreshR : stem_find_entry (stem_resize_map m (m.num_buckets * 2)).2 k = none := by
      rw [hfindR]; exact hfresh
    have hce : stem_create_entry (stem_resize_map m (m.num_buckets * 2)).2 k ptr bytes name
        = stem_create_entry m k ptr bytes name :=
      create_entry_congr hfields.2.1 hfields.2.2.1 k ptr bytes name
    set mR := (stem_resize_map m (m.num_buckets * 2)).2 with hmR
    set e := stem_create_entry mR k ptr bytes name with he
    have hkey : e.enum_value = k := rfl
    refine ⟨rfl, insert_wf wR (hkey.symm ▸ hfreshR), ?_, ?_, ?_, ?_, ?_⟩
    · show mR.count + 1 = m.count + 1
      rw [hfields.1]
    · exact hfields.2.1
    · exact hfields.2.2.1
    · have := insert_find_self wR (hkey.symm ▸ hfreshR)
      rw [hkey] at this
      rw [this, hce]
    · intro k2 hk2
      have := insert_find_other wR (hkey.symm ▸ hfreshR) (hkey.symm ▸ hk2)
      rw [this, hfindR]
  · rw [if_neg hload]
    have hcond : ¬((StemError.success, m).1 ≠ StemError.success) := by simp
    rw [if_neg hcond]
    set e := stem_create_entry m k ptr bytes name with he
    have hkey : e.enum_value = k := rfl
    refine ⟨rfl, insert_wf w (hkey.symm ▸ hfresh), rfl, rfl, rfl, ?_, ?_⟩
    · have := insert_find_self w (hkey.symm ▸ hfresh)
      rw [hkey] at this
      exact this
    · intro k2 hk2
      exact insert_find_other w (hkey.symm ▸ hfresh) (hkey.symm ▸ hk2)

/-- A non-success `stdem_associate_ex` on a well-formed map returns the map
unchanged (in the all-allocations-succeed execution). -/
theorem associate_err_unchanged {m : EnumMap} (w : WFMap m) {k : Int}
    {ptr : Nat} {bytes : List Nat} {name : Option (List Nat)}
    (h : (stdem_associate_ex m k ptr bytes name).1 ≠ StemError.success) :
    (stdem_associate_ex m k ptr bytes name).2 = m := by
  unfold stdem_associate_ex at h ⊢
  by_cases hro : m.flags &&& STEM_FLAGS_READONLY ≠ 0
  · rw [if_pos hro]
  · rw [if_neg hro] at h ⊢
    by_cases hex : (stem_find_entry m k).isSome
    · rw [if_pos hex]
    · exfalso
      rw [if_neg hex] at h
      have hfresh : stem_find_entry m k = none := Option.not_isSome_iff_eq_none.1 hex
      have hro0 : m.flags &&& STEM_FLAGS_READONLY = 0 := by omega
      have := (associate_ok w hro0 hfresh ptr bytes name).1
      unfold stdem_associate_ex at this
      rw [if_neg hro, if_neg hex] at this
      exact h this

/-- Derive the preconditions and postconditions from a successful
`stdem_associate_ex` equation. -/
theorem associate_success_inv {m m2 : EnumMap} (w : WFMap m) {k : Int}
    {ptr : Nat} {bytes : List Nat} {name : Option (List Nat)}
    (h : stdem_associate_ex m k ptr bytes name = (StemError.success, m2)) :
    m.flags &&& STEM_FLAGS_READONLY = 0 ∧ stem_find_entry m k = none ∧
    WFMap m2 ∧ m2.count = m.count + 1 ∧ m2.value_size = m.value_size ∧
    m2.flags = m.flags ∧
    stem_find_entry m2 k = some (stem_create_entry m k ptr bytes name) ∧
    (∀ k2, k2 ≠ k → stem_find_entry m2 k2 = stem_find_entry m k2) := by
  have hro : m.flags &&& STEM_FLAGS_READONLY = 0 := by
    by_contra hro
    unfold stdem_associate_ex at h
    rw [if_pos hro] at h
    cases h
  have hfresh : stem_find_entry m k = none := by
    by_contra hex
    have hex2 : (stem_find_entry m k).isSome := Option.ne_none_iff_isSome.1 hex
    unfold stdem_associate_ex at h
    rw [if_neg (by simp [hro]), if_pos hex2] at h
    cases h
  have spec := associate_ok w hro hfresh ptr bytes name
  have h2 : (stdem_associate_ex m k ptr bytes name).2 = m2 := by rw [h]
  rw [h2] at spec
  exact ⟨hro, hfresh, spec.2.1, spec.2.2.1, spec.2.2.2.1, spec.2.2.2.2.1,
    spec.2.2.2.2.2.1, spec.2.2.2.2.2.2⟩

end Stdem

namespace Stdem

/-! ## `stdem_create_ex` and `stdem_clear` -/

theorem create_ok_iff {n vs fl : Nat} :
    (∃ m, stdem_create_ex n vs fl = Except.ok m) ↔ 0 < n := by
  constructor
  · rintro ⟨m, hm⟩
    unfold stdem_create_ex at hm
    by_contra h
    rw [if_pos (by omega)] at hm
    cases hm
  · intro h
    unfold stdem_create_ex
    rw [if_neg (by omega)]
    exact ⟨_, rfl⟩

theorem create_spec {n vs fl : Nat} {m : EnumMap}
    (h : stdem_create_ex n vs fl = Except.ok m) :
    WFMap m ∧ m.count = 0 ∧ m.value_size = vs ∧ m.flags = fl ∧
    entriesList m = [] ∧ (∀ k, stem_find_entry m k = none) ∧ 0 < n := by
  unfold stdem_create_ex at h
  by_cases hn : n = 0
  · rw [if_pos hn] at h; cases h
  · rw [if_neg hn] at h
    have hm := (Except.ok.inj h).symm
    subst hm
    have hnbpos : 0 < (if 12 < n then 4 * n / 3 + 1 else STEM_DEFAULT_BUCKETS) := by
      split <;> simp [STEM_DEFAULT_BUCKETS]
    refine ⟨⟨?_, hnbpos, ?_, ?_, ?_⟩, rfl, rfl, rfl, ?_, ?_, by omega⟩
    · exact List.length_replicate ..
    · exact placed_replicate _ _
    · show (entriesList _).Pairwise _
      unfold entriesList
      simp only [flatten_replicate_nil]
      exact List.Pairwise.nil
    · show (0 : Nat) = (entriesList _).length
      unfold entriesList
      simp [flatten_replicate_nil]
    · unfold entriesList
      simp [flatten_replicate_nil]
    · intro k
      unfold stem_find_entry
      simp only [getD_replicate_nil]
      rfl

theorem clear_wf {m : EnumMap} (w : WFMap m) : WFMap (stdem_clear m).2 := by
  unfold stdem_clear
  by_cases hro : m.flags &&& STEM_FLAGS_READONLY ≠ 0
  · rw [if_pos hro]; exact w
  · rw [if_neg hro]
    have hflat : (m.buckets.map (fun _ => ([] : List EnumEntry))).flatten = [] := by
      induction m.buckets with
      | nil => rfl
      | cons hd tl ih => simp [ih]
    refine ⟨?_, w.hpos, ?_, ?_, ?_⟩
    · simp [w.hlen]
    · intro i hi x hx
      rw [List.getElem_map] at hx
      cases hx
    · show (entriesList _).Pairwise _
      unfold entriesList
      simp only [hflat]
      exact List.Pairwise.nil
    · show (0 : Nat) = (entriesList _).length
      unfold entriesList
      simp [hflat]

/-! ## The replay loop (`stdem_copy`, merge phase 1) -/

theorem copyLoop_wf {L : List EnumEntry} :
    ∀ {m mF : EnumMap}, copyLoop m L = Except.ok mF → WFMap m → WFMap mF := by
  induction L with
  | nil => intro m mF h w; cases h; exact w
  | cons e es ih =>
    intro m mF h w
    unfold copyLoop at h
    rcases hr : replayAssoc m e with ⟨err, m2⟩
    rw [hr] at h
    cases err with
    | success => exact ih h (associate_success_inv w hr).2.2.1
    | invalidArg => cases h
    | outOfMemory => cases h
    | indexOutOfBounds => cases h
    | notFound => cases h
    | alreadyExists => cases h
    | uninitialized => cases h

/-- Full specification of a successful replay of a key-distinct, all-fresh
entry list through `stdem_associate_ex` (the loop of `stdem_copy`). -/
theorem copyLoop_spec :
    ∀ (L : List EnumEntry) (m : EnumMap), WFMap m →
      m.flags &&& STEM_FLAGS_READONLY = 0 →
      L.Pairwise (fun a b => a.enum_value ≠ b.enum_value) →
      (∀ e ∈ L, stem_find_entry m e.enum_value = none) →
      ∃ mF, copyLoop m L = Except.ok mF ∧ WFMap mF ∧
        mF.count = m.count + L.length ∧ mF.value_size = m.value_size ∧
        mF.flags = m.flags ∧
        (∀ e ∈ L, stem_find_entry mF e.enum_value =
          some (stem_create_entry m e.enum_value (valPtr e.value)
            (valBytes e.value) e.name)) ∧
        (∀ k, (∀ e ∈ L, e.enum_value ≠ k) →
          stem_find_entry mF k = stem_find_entry m k) := by
  intro L
  induction L with
  | nil =>
    intro m w hro hd hfresh
    exact ⟨m, rfl, w, by simp, rfl, rfl, by simp, fun k _ => rfl⟩
  | cons e es ih =>
    intro m w hro hd hfresh
    have hfe : stem_find_entry m e.enum_value = none :=
      hfresh e (List.mem_cons_self ..)
    have spec := associate_ok w hro hfe (valPtr e.value) (valBytes e.value) e.name
    set m1 := (stdem_associate_ex m e.enum_value (valPtr e.value)
      (valBytes e.value) e.name).2 with hm1
    have hstep : replayAssoc m e = (StemError.success, m1) := by
      unfold replayAssoc
      rw [← spec.1]
    have hd2 := (List.pairwise_cons.1 hd).2
    have hhead := (List.pairwise_cons.1 hd).1
    have hfresh2 : ∀ x ∈ es, stem_find_entry m1 x.enum_value = none := by
      intro x hx
      rw [spec.2.2.2.2.2.2 x.enum_value (fun hEq => hhead x hx hEq.symm)]
      exact hfresh x (List.mem_cons_of_mem _ hx)
    obtain ⟨mF, hF, wF, hcF, hvF, hflF, hlookF, hpresF⟩ :=
      ih m1 spec.2.1 (by rw [spec.2.2.2.2.1]; exact hro) hd2 hfresh2
    refine ⟨mF, ?_, wF, ?_, ?_, ?_, ?_, ?_⟩
    · unfold copyLoop
      rw [hstep]
      exact hF
    · rw [hcF, spec.2.2.1, List.length_cons]; omega
    · rw [hvF, spec.2.2.2.1]
    · rw [hflF, spec.2.2.2.2.1]
    · intro x hx
      rcases List.mem_cons.1 hx with rfl | hx2
      · rw [hpresF x.enum_value (fun y hy hEq => hhead y hy hEq.symm)]
        rw [spec.2.2.2.2.2.1]
      · exact (hlookF x hx2).trans
          (congrArg some (create_entry_congr spec.2.2.2.1 spec.2.2.2.2.1 _ _ _ _))
    · intro k hk
      rw [hpresF k (fun y hy => hk y (List.mem_cons_of_mem _ hy))]
      exact spec.2.2.2.2.2.2 k (fun hEq => hk e (List.mem_cons_self ..) hEq.symm)

end Stdem

namespace Stdem

/-! ## In-place update of one entry (the merge overwrite branch) -/

theorem replaceFirst_map_key (l : List EnumEntry) (k : Int)
    (f : EnumEntry → EnumEntry) (hf : ∀ x, (f x).enum_value = x.enum_value) :
    (replaceFirst l k f).map (fun e => e.enum_value)
      = l.map (fun e => e.enum_value) := by
  induction l with
  | nil => rfl
  | cons e es ih =>
    unfold replaceFirst
    by_cases h : e.enum_value == k
    · rw [if_pos h]
      simp [hf e]
    · rw [if_neg h]
      simp [ih]

theorem replaceFirst_find_self {l : List EnumEntry} {k : Int} {a : EnumEntry}
    {f : EnumEntry → EnumEntry} (hf : ∀ x, (f x).enum_value = x.enum_value)
    (h : l.find? (fun e => e.enum_value == k) = some a) :
    (replaceFirst l k f).find? (fun e => e.enum_value == k) = some (f a) := by
  induction l with
  | nil => cases h
  | cons e es ih =>
    unfold replaceFirst
    by_cases hk : e.enum_value == k
    · rw [if_pos hk]
      rw [@List.find?_cons_of_pos EnumEntry (fun x => x.enum_value == k) e es hk] at h
      have ha := Option.some.inj h
      subst ha
      exact @List.find?_cons_of_pos EnumEntry (fun x => x.enum_value == k) (f e) es
        (by show ((f e).enum_value == k) = true; rw [hf e]; exact hk)
    · rw [if_neg hk]
      rw [@List.find?_cons_of_neg EnumEntry (fun x => x.enum_value == k) e es hk] at h
      rw [@List.find?_cons_of_neg EnumEntry (fun x => x.enum_value == k) e
        (replaceFirst es k f) hk]
      exact ih h

theorem replaceFirst_find_other {l : List EnumEntry} {k k2 : Int}
    {f : EnumEntry → EnumEntry} (hf : ∀ x, (f x).enum_value = x.enum_value)
    (hne : k2 ≠ k) :
    (replaceFirst l k f).find? (fun e => e.enum_value == k2)
      = l.find? (fun e => e.enum_value == k2) := by
  induction l with
  | nil => rfl
  | cons e es ih =>
    unfold replaceFirst
    by_cases hk : e.enum_value == k
    · rw [if_pos hk]
      have hek : e.enum_value = k := by simpa using hk
      have h1 : ¬(((f e).enum_value == k2) = true) := by
        rw [hf e, hek]
        simpa using fun hEq => hne hEq.symm
      have h2 : ¬((e.enum_value == k2) = true) := by
        rw [hek]
        simpa using fun hEq => hne hEq.symm
      rw [@List.find?_cons_of_neg EnumEntry (fun x => x.enum_value == k2) (f e) es h1,
        @List.find?_cons_of_neg EnumEntry (fun x => x.enum_value == k2) e es h2]
    · rw [if_neg hk]
      by_cases hk2 : e.enum_value == k2
      · rw [@List.find?_cons_of_pos EnumEntry (fun x => x.enum_value == k2) e
            (replaceFirst es k f) hk2,
          @List.find?_cons_of_pos EnumEntry (fun x => x.enum_value == k2) e es hk2]
      · rw [@List.find?_cons_of_neg EnumEntry (fun x => x.enum_value == k2) e
            (replaceFirst es k f) hk2,
          @List.find?_cons_of_neg EnumEntry (fun x => x.enum_value == k2) e es hk2]
        exact ih

theorem replaceFirst_key_mem {l : List EnumEntry} {k : Int}
    {f : EnumEntry → EnumEntry} (hf : ∀ x, (f x).enum_value = x.enum_value)
    {x : EnumEntry} (hx : x ∈ replaceFirst l k f) :
    x.enum_value ∈ l.map (fun e => e.enum_value) := by
  rw [← replaceFirst_map_key l k f hf]
  exact List.mem_map_of_mem _ hx

theorem set_map_self {α β : Type} (g : α → β) (l : List α) (i : Nat)
    (h : i < l.length) : (l.map g).set i (g l[i]) = l.map g := by
  induction l generalizing i with
  | nil => simp at h
  | cons a t ih =>
    cases i with
    | zero => rfl
    | succ j => simp [List.set, ih j (by simpa using h)]

theorem updateAt_fields (m : EnumMap) (k : Int) (f : EnumEntry → EnumEntry) :
    (updateAt m k f).count = m.count ∧
    (updateAt m k f).value_size = m.value_size ∧
    (updateAt m k f).flags = m.flags ∧
    (updateAt m k f).num_buckets = m.num_buckets :=
  ⟨rfl, rfl, rfl, rfl⟩

theorem updateAt_keysList {m : EnumMap} (w : WFMap m) (k : Int)
    {f : EnumEntry → EnumEntry} (hf : ∀ x, (f x).enum_value = x.enum_value) :
    keysList (updateAt m k f) = keysList m := by
  have hidx : bucketIdx m.num_buckets k < m.buckets.length := by
    rw [w.hlen]; exact bucketIdx_lt _ _ w.hpos
  unfold keysList entriesList updateAt
  rw [List.getD_eq_getElem _ _ hidx]
  rw [List.map_flatten, List.map_flatten, List.map_set]
  rw [replaceFirst_map_key _ _ _ hf]
  rw [set_map_self (List.map (fun e => e.enum_value)) m.buckets
    (bucketIdx m.num_buckets k) hidx]

theorem updateAt_wf {m : EnumMap} (w : WFMap m) (k : Int)
    {f : EnumEntry → EnumEntry} (hf : ∀ x, (f x).enum_value = x.enum_value) :
    WFMap (updateAt m k f) := by
  have hidx : bucketIdx m.num_buckets k < m.buckets.length := by
    rw [w.hlen]; exact bucketIdx_lt _ _ w.hpos
  have hkeys := updateAt_keysList w k hf
  have hlen2 : (updateAt m k f).buckets.length = m.num_buckets := by
    unfold updateAt
    rw [List.length_set]
    exact w.hlen
  refine ⟨hlen2, w.hpos, ?_, ?_, ?_⟩
  · intro i hi x hx
    unfold updateAt at hx
    by_cases hij : bucketIdx m.num_buckets k = i
    · subst hij
      rw [List.getElem_set_self] at hx
      rw [List.getD_eq_getElem _ _ hidx] at hx
      have hxmem := replaceFirst_key_mem hf hx
      obtain ⟨y, hy, hyx⟩ := List.mem_map.1 hxmem
      have hplc := w.hplaced _ hidx y hy
      show bucketIdx m.num_buckets x.enum_value = bucketIdx m.num_buckets k
      rw [← hyx]
      exact hplc
    · rw [List.getElem_set_ne hij] at hx
      have hi2 : i < m.buckets.length := by
        rw [w.hlen, ← hlen2]; exact hi
      exact w.hplaced _ hi2 x hx
  · refine List.pairwise_map.1 ?_
    show (keysList (updateAt m k f)).Pairwise Ne
    rw [hkeys]
    exact List.pairwise_map.2 w.hdist
  · have hlenk : (entriesList (updateAt m k f)).length
        = (entriesList m).length := by
      have := congrArg List.length hkeys
      simpa [keysList] using this
    show (updateAt m k f).count = _
    rw [(updateAt_fields m k f).1, hlenk]
    exact w.hcount

theorem updateAt_find_self {m : EnumMap} (w : WFMap m) {k : Int} {a : EnumEntry}
    {f : EnumEntry → EnumEntry} (hf : ∀ x, (f x).enum_value = x.enum_value)
    (h : stem_find_entry m k = some a) :
    stem_find_entry (updateAt m k f) k = some (f a) := by
  have hidx : bucketIdx m.num_buckets k < m.buckets.length := by
    rw [w.hlen]; exact bucketIdx_lt _ _ w.hpos
  unfold stem_find_entry at h ⊢
  unfold updateAt
  have hidxs : bucketIdx m.num_buckets k <
      (m.buckets.set (bucketIdx m.num_buckets k)
        (replaceFirst (m.buckets.getD (bucketIdx m.num_buckets k) []) k f)).length := by
    rw [List.length_set]; exact hidx
  rw [List.getD_eq_getElem _ _ hidxs, List.getElem_set_self]
  exact replaceFirst_find_self hf h

theorem getD_set_self {α : Type} (l : List (List α)) (i : Nat) (c : List α)
    (h : i < l.length) : (l.set i c).getD i [] = c := by
  rw [List.getD_eq_getElem _ _ (by rw [List.length_set]; exact h)]
  exact List.getElem_set_self _

theorem getD_set_ne {α : Type} (l : List (List α)) {i j : Nat} (c : List α)
    (hij : i ≠ j) : (l.set i c).getD j [] = l.getD j [] := by
  rcases Nat.lt_or_ge j l.length with h | h
  · rw [List.getD_eq_getElem _ _ (show j < (l.set i c).length by
      rw [List.length_set]; exact h)]
    rw [List.getD_eq_getElem _ _ h]
    exact List.getElem_set_ne hij _
  · rw [List.getD_eq_default _ _ (by rw [List.length_set]; exact h)]
    rw [List.getD_eq_default _ _ h]

theorem updateAt_find_other {m : EnumMap} (w : WFMap m) {k k2 : Int}
    {f : EnumEntry → EnumEntry} (hf : ∀ x, (f x).enum_value = x.enum_value)
    (hne : k2 ≠ k) :
    stem_find_entry (updateAt m k f) k2 = stem_find_entry m k2 := by
  have hidx : bucketIdx m.num_buckets k < m.buckets.length := by
    rw [w.hlen]; exact bucketIdx_lt _ _ w.hpos
  unfold stem_find_entry updateAt
  by_cases hij : bucketIdx m.num_buckets k = bucketIdx m.num_buckets k2
  · rw [← hij]
    rw [getD_set_self _ _ _ hidx]
    exact replaceFirst_find_other hf hne
  · rw [getD_set_ne _ _ hij]

end Stdem

namespace Stdem

/-! ## Phase 2 of `stdem_merge` -/

theorem mergeOverwriteEntry_key (vs fl : Nat) (src dst : EnumEntry) :
    (mergeOverwriteEntry vs fl src dst).enum_value = dst.enum_value := rfl

theorem mergeLoop2_wf {ow : Bool} :
    ∀ {L : List EnumEntry} {m mF : EnumMap},
      mergeLoop2 ow m L = Except.ok mF → WFMap m → WFMap mF := by
  intro L
  induction L with
  | nil => intro m mF h w; cases h; exact w
  | cons e es ih =>
    intro m mF h w
    unfold mergeLoop2 at h
    rcases hfind : stem_find_entry m e.enum_value with _ | a
    · rw [hfind] at h
      rcases hr : replayAssoc m e with ⟨err, m2⟩
      rw [hr] at h
      cases err with
      | success => exact ih h (associate_success_inv w hr).2.2.1
      | invalidArg => cases h
      | outOfMemory => cases h
      | indexOutOfBounds => cases h
      | notFound => cases h
      | alreadyExists => cases h
      | uninitialized => cases h
    · rw [hfind] at h
      cases ow with
      | true =>
        simp only [if_true] at h
        exact ih h (updateAt_wf w e.enum_value
          (fun x => mergeOverwriteEntry_key m.value_size m.flags e x))
      | false =>
        simp only [if_false] at h
        exact ih h w

/-- Entries whose keys all differ from `k` never disturb the entry at `k`
(any overwrite mode). -/
theorem mergeLoop2_preserve {ow : Bool} {k : Int} :
    ∀ {L : List EnumEntry} {m mF : EnumMap},
      mergeLoop2 ow m L = Except.ok mF → WFMap m →
      (∀ e ∈ L, e.enum_value ≠ k) →
      stem_find_entry mF k = stem_find_entry m k := by
  intro L
  induction L with
  | nil => intro m mF h w hk; cases h; rfl
  | cons e es ih =>
    intro m mF h w hk
    have hek : e.enum_value ≠ k := hk e (List.mem_cons_self ..)
    have hkes : ∀ x ∈ es, x.enum_value ≠ k :=
      fun x hx => hk x (List.mem_cons_of_mem _ hx)
    unfold mergeLoop2 at h
    rcases hfind : stem_find_entry m e.enum_value with _ | a
    · rw [hfind] at h
      rcases hr : replayAssoc m e with ⟨err, m2⟩
      rw [hr] at h
      cases err with
      | success =>
        have inv := associate_success_inv w hr
        rw [ih h inv.2.2.1 hkes]
        exact inv.2.2.2.2.2.2.2 k (fun hEq => hek hEq.symm)
      | invalidArg => cases h
      | outOfMemory => cases h
      | indexOutOfBounds => cases h
      | notFound => cases h
      | alreadyExists => cases h
      | uninitialized => cases h
    · rw [hfind] at h
      cases ow with
      | true =>
        simp only [if_true] at h
        have hf := fun x => mergeOverwriteEntry_key m.value_size m.flags e x
        rw [ih h (updateAt_wf w e.enum_value hf) hkes]
        exact updateAt_find_other w hf (fun hEq => hek hEq.symm)
      | false =>
        simp only [if_false] at h
        exact ih h w hkes

/-- With `overwrite = false`, an already-present key keeps its map1-derived
entry untouched through phase 2. -/
theorem mergeLoop2_false_present {k : Int} :
    ∀ {L : List EnumEntry} {m mF : EnumMap},
      mergeLoop2 false m L = Except.ok mF → WFMap m →
      (stem_find_entry m k).isSome →
      stem_find_entry mF k = stem_find_entry m k := by
  intro L
  induction L with
  | nil => intro m mF h w hk; cases h; rfl
  | cons e es ih =>
    intro m mF h w hk
    unfold mergeLoop2 at h
    rcases hfind : stem_find_entry m e.enum_value with _ | a
    · rw [hfind] at h
      rcases hr : replayAssoc m e with ⟨err, m2⟩
      rw [hr] at h
      cases err with
      | success =>
        have inv := associate_success_inv w hr
        have hek : k ≠ e.enum_value := by
          intro hEq
          rw [hEq] at hk
          rw [hfind] at hk
          cases hk
        have hpres := inv.2.2.2.2.2.2.2 k hek
        rw [ih h inv.2.2.1 (by rw [hpres]; exact hk)]
        exact hpres
      | invalidArg => cases h
      | outOfMemory => cases h
      | indexOutOfBounds => cases h
      | notFound => cases h
      | alreadyExists => cases h
      | uninitialized => cases h
    · rw [hfind] at h
      simp only [if_false] at h
      exact ih h w hk

/-- With `overwrite = true`, the entry at a key present in both maps ends up
as the map1-derived entry overwritten in place from map2's entry. -/
theorem mergeLoop2_true_overwrite {k : Int} :
    ∀ {L : List EnumEntry} {m mF : EnumMap} {ek eB : EnumEntry},
      mergeLoop2 true m L = Except.ok mF → WFMap m →
      L.Pairwise (fun a b => a.enum_value ≠ b.enum_value) →
      stem_find_entry m k = some ek → eB ∈ L → eB.enum_value = k →
      stem_find_entry mF k
        = some (mergeOverwriteEntry m.value_size m.flags eB ek) := by
  intro L
  induction L with
  | nil => intro m mF ek eB h w hd hk hB hBk; cases hB
  | cons e es ih =>
    intro m mF ek eB h w hd hk hB hBk
    have hd2 := (List.pairwise_cons.1 hd).2
    have hhead := (List.pairwise_cons.1 hd).1
    unfold mergeLoop2 at h
    by_cases hek : e.enum_value = k
    · -- the head is the (unique) map2 entry for k
      have hBe : eB = e := by
        rcases List.mem_cons.1 hB with rfl | hB2
        · rfl
        · exact absurd (hek.trans hBk.symm) (hhead eB hB2)
      subst hBe
      have hfind : stem_find_entry m eB.enum_value = some ek := by
        rw [hek]; exact hk
      rw [hfind] at h
      simp only [if_true] at h
      have hf := fun x => mergeOverwriteEntry_key m.value_size m.flags eB x
      have w2 := updateAt_wf w eB.enum_value hf
      have hkes : ∀ x ∈ es, x.enum_value ≠ k := by
        intro x hx hEq
        exact hhead x hx (hek.trans hEq.symm)
      have hpres := mergeLoop2_preserve h w2 hkes
      have hself := updateAt_find_self w hf hfind
      rw [hek] at hpres hself
      rw [hpres, hself]
    · -- the head is some other key; recurse
      have hB2 : eB ∈ es := by
        rcases List.mem_cons.1 hB with rfl | hB2
        · exact absurd hBk hek
        · exact hB2
      rcases hfind : stem_find_entry m e.enum_value with _ | a
      · rw [hfind] at h
        rcases hr : replayAssoc m e with ⟨err, m2⟩
        rw [hr] at h
        cases err with
        | success =>
          have inv := associate_success_inv w hr
          have hk2 : stem_find_entry m2 k = some ek := by
            rw [inv.2.2.2.2.2.2.2 k (fun hEq => hek hEq.symm)]
            exact hk
          have := ih h inv.2.2.1 hd2 hk2 hB2 hBk
          rw [this, inv.2.2.2.2.1, inv.2.2.2.2.2.1]
        | invalidArg => cases h
        | outOfMemory => cases h
        | indexOutOfBounds => cases h
        | notFound => cases h
        | alreadyExists => cases h
        | uninitialized => cases h
      · rw [hfind] at h
        simp only [if_true] at h
        have hf := fun x => mergeOverwriteEntry_key m.value_size m.flags e x
        have w2 := updateAt_wf w e.enum_value hf
        have hk2 : stem_find_entry (updateAt m e.enum_value
            (mergeOverwriteEntry m.value_size m.flags e)) k = some ek := by
          rw [updateAt_find_other w hf (fun hEq => hek hEq.symm)]
          exact hk
        have := ih h w2 hd2 hk2 hB2 hBk
        exact this

end Stdem

namespace Stdem

/-! ## The entry-reading loop of `stdem_deserialize` -/

theorem parseEntries_wf :
    ∀ {n : Nat} {vs : Nat} {st : List Tok} {m mF : EnumMap},
      parseEntries n m vs st = Except.ok mF → WFMap m → WFMap mF := by
  intro n
  induction n with
  | zero => intro vs st m mF h w; cases h; exact w
  | succ n ih =>
    intro vs st m mF h w
    rcases st with _ | ⟨t1, st1⟩
    · cases h
    · cases t1 with
      | intT k =>
        rcases st1 with _ | ⟨t2, st2⟩
        · cases h
        · cases t2 with
          | u16 nlen =>
            have h2 : (match readName nlen st2 with
                | Except.error e => Except.error e
                | Except.ok (name, st3) =>
                  match readValue vs st3 with
                  | Except.error e => Except.error e
                  | Except.ok (ptr, bytes, st4) =>
                    match stdem_associate_ex m k ptr bytes name with
                    | (StemError.success, m2) => parseEntries n m2 vs st4
                    | (err, _) => Except.error err)
                = Except.ok mF := h
            rcases hn : readName nlen st2 with e | ⟨name, st3⟩
            · rw [hn] at h2; cases h2
            · rw [hn] at h2
              have h3 : (match readValue vs st3 with
                  | Except.error e => Except.error e
                  | Except.ok (ptr, bytes, st4) =>
                    match stdem_associate_ex m k ptr bytes name with
                    | (StemError.success, m2) => parseEntries n m2 vs st4
                    | (err, _) => Except.error err)
                  = Except.ok mF := h2
              rcases hv : readValue vs st3 with e | ⟨ptr, bytes, st4⟩
              · rw [hv] at h3; cases h3
              · rw [hv] at h3
                have h4 : (match stdem_associate_ex m k ptr bytes name with
                    | (StemError.success, m2) => parseEntries n m2 vs st4
                    | (err, _) => Except.error err) = Except.ok mF := h3
                rcases hr : stdem_associate_ex m k ptr bytes name with ⟨err, m2⟩
                rw [hr] at h4
                cases err with
                | success => exact ih h4 (associate_success_inv w hr).2.2.1
                | invalidArg => cases h4
                | outOfMemory => cases h4
                | indexOutOfBounds => cases h4
                | notFound => cases h4
                | alreadyExists => cases h4
                | uninitialized => cases h4
          | u32 x => cases h
          | usize x => cases h
          | flagsT x => cases h
          | intT x => cases h
          | bytes x => cases h
          | ptrT x => cases h
      | u32 x => cases h
      | u16 x => cases h
      | usize x => cases h
      | flagsT x => cases h
      | bytes x => cases h
      | ptrT x => cases h

end Stdem

namespace Stdem

/-! ## Maps reachable through the public API -/

theorem copy_wf {m m2 : EnumMap} (h : stdem_copy m = Except.ok m2) : WFMap m2 := by
  unfold stdem_copy at h
  rcases hc : stdem_create_ex m.count m.value_size m.flags with e | m0
  · rw [hc] at h; cases h
  · rw [hc] at h
    exact copyLoop_wf h (create_spec hc).1

theorem merge_wf {m1 m2 m3 : EnumMap} {ow : Bool}
    (h : stdem_merge m1 m2 ow = Except.ok m3) : WFMap m3 := by
  unfold stdem_merge at h
  by_cases hvs : m1.value_size ≠ m2.value_size
  · rw [if_pos hvs] at h; cases h
  · rw [if_neg hvs] at h
    rcases hc : stdem_create_ex (m1.count + m2.count) m1.value_size
        (m1.flags ||| m2.flags) with e | m0
    · rw [hc] at h; cases h
    · rw [hc] at h
      have h2 : (match copyLoop m0 (entriesList m1) with
          | Except.error e => Except.error e
          | Except.ok mA => mergeLoop2 ow mA (entriesList m2))
          = Except.ok m3 := h
      rcases hl : copyLoop m0 (entriesList m1) with e | mA
      · rw [hl] at h2; cases h2
      · rw [hl] at h2
        exact mergeLoop2_wf h2 (copyLoop_wf hl (create_spec hc).1)

theorem deserialize_wf {st : List Tok} {m : EnumMap}
    (h : stdem_deserialize st = Except.ok m) : WFMap m := by
  unfold stdem_deserialize at h
  rcases st with _ | ⟨t1, st1⟩
  · cases h
  · cases t1 with
    | u32 mg =>
      rcases st1 with _ | ⟨t2, st2⟩
      · cases h
      · cases t2 with
        | u16 ver =>
          rcases st2 with _ | ⟨t3, st3⟩
          · cases h
          · cases t3 with
            | usize cnt =>
              rcases st3 with _ | ⟨t4, st4⟩
              · cases h
              · cases t4 with
                | usize vs =>
                  rcases st4 with _ | ⟨t5, st5⟩
                  · cases h
                  · cases t5 with
                    | flagsT fl =>
                      have h2 : (if mg ≠ STEM_MAGIC then
                            Except.error StemError.invalidArg
                          else if ver ≠ 1 then Except.error StemError.invalidArg
                          else match stdem_create_ex cnt vs fl with
                            | Except.error e => Except.error e
                            | Except.ok m0 => parseEntries cnt m0 vs st5)
                          = Except.ok m := h
                      by_cases hmg : mg ≠ STEM_MAGIC
                      · rw [if_pos hmg] at h2; cases h2
                      · rw [if_neg hmg] at h2
                        by_cases hver : ver ≠ 1
                        · rw [if_pos hver] at h2; cases h2
                        · rw [if_neg hver] at h2
                          rcases hc : stdem_create_ex cnt vs fl with e | m0
                          · rw [hc] at h2; cases h2
                          · rw [hc] at h2
                            exact parseEntries_wf h2 (create_spec hc).1
                    | u32 x => cases h
                    | u16 x => cases h
                    | usize x => cases h
                    | intT x => cases h
                    | bytes x => cases h
                    | ptrT x => cases h
                | u32 x => cases h
                | u16 x => cases h
                | flagsT x => cases h
                | intT x => cases h
                | bytes x => cases h
                | ptrT x => cases h
            | u32 x => cases h
            | u16 x => cases h
            | flagsT x => cases h
            | intT x => cases h
            | bytes x => cases h
            | ptrT x => cases h
        | u32 x => cases h
        | usize x => cases h
        | flagsT x => cases h
        | intT x => cases h
        | bytes x => cases h
        | ptrT x => cases h
    | u16 x => cases h
    | usize x => cases h
    | flagsT x => cases h
    | intT x => cases h
    | bytes x => cases h
    | ptrT x => cases h

theorem associate_wf_any {m : EnumMap} (w : WFMap m) (k : Int) (ptr : Nat)
    (bytes : List Nat) (name : Option (List Nat)) :
    WFMap (stdem_associate_ex m k ptr bytes name).2 := by
  by_cases hro : m.flags &&& STEM_FLAGS_READONLY = 0
  · by_cases hex : (stem_find_entry m k).isSome
    · have : (stdem_associate_ex m k ptr bytes name).2 = m := by
        unfold stdem_associate_ex
        rw [if_neg (by simp [hro]), if_pos hex]
      rw [this]; exact w
    · exact (associate_ok w hro (Option.not_isSome_iff_eq_none.1 hex)
        ptr bytes name).2.1
  · have : (stdem_associate_ex m k ptr bytes name).2 = m := by
      unfold stdem_associate_ex
      rw [if_pos hro]
    rw [this]; exact w


/-- Every reachable map is well-formed; in particular its live entries carry
pairwise-distinct keys. -/
theorem reachable_wf {m : EnumMap} (h : Reachable m) : WFMap m := by
  induction h with
  | created n vs fl m hc => exact (create_spec hc).1
  | associated m k ptr bytes name _ ih => exact associate_wf_any ih k ptr bytes name
  | cleared m _ ih => exact clear_wf ih
  | copied m m2 _ hc _ => exact copy_wf hc
  | merged m1 m2 m3 ow _ _ hm _ _ => exact merge_wf hm
  | deserialized st m hd => exact deserialize_wf hd

end Stdem

namespace Stdem

/-! ## Parsing back a serialized entry stream -/

theorem readName_zero (st : List Tok) : readName 0 st = Except.ok (none, st) := by
  simp [readName]

theorem readName_pos {nlen : Nat} (h : 0 < nlen) (bs : List Nat) (st : List Tok)
    (hb : bs.length = nlen) :
    readName nlen (Tok.bytes bs :: st) = Except.ok (some bs, st) := by
  simp [readName, h, hb]

theorem readValue_pos {vs : Nat} (h : 0 < vs) (bs : List Nat) (st : List Tok)
    (hb : bs.length = vs) :
    readValue vs (Tok.bytes bs :: st) = Except.ok (1, bs, st) := by
  simp [readValue, h, hb]

theorem parseEntries_cons_eq {n : Nat} {m : EnumMap} {vs nlen : Nat} {k : Int}
    {st2 st3 st4 : List Tok} {name : Option (List Nat)} {ptr : Nat}
    {bytes : List Nat}
    (hn : readName nlen st2 = Except.ok (name, st3))
    (hv : readValue vs st3 = Except.ok (ptr, bytes, st4)) :
    parseEntries (n + 1) m vs (Tok.intT k :: Tok.u16 nlen :: st2)
      = (match stdem_associate_ex m k ptr bytes name with
        | (StemError.success, m2) => parseEntries n m2 vs st4
        | (err, _) => Except.error err) := by
  have h0 : parseEntries (n + 1) m vs (Tok.intT k :: Tok.u16 nlen :: st2)
      = (match readName nlen st2 with
        | Except.error e => Except.error e
        | Except.ok (name, st3) =>
          match readValue vs st3 with
          | Except.error e => Except.error e
          | Except.ok (ptr, bytes, st4) =>
            match stdem_associate_ex m k ptr bytes name with
            | (StemError.success, m2) => parseEntries n m2 vs st4
            | (err, _) => Except.error err) := rfl
  rw [h0, hn]
  show (match readValue vs st3 with
      | Except.error e => Except.error e
      | Except.ok (ptr, bytes, st4) =>
        match stdem_associate_ex m k ptr bytes name with
        | (StemError.success, m2) => parseEntries n m2 vs st4
        | (err, _) => Except.error err) = _
  rw [hv]

/-- Parsing back the encoding of a key-distinct, all-fresh entry list of a
copy-mode map reproduces every entry (names included, given the `uint16_t`
truncation does not bite: non-empty names shorter than 65536 bytes). -/
theorem parseEntries_encode {vs : Nat} (hvs : 0 < vs) :
    ∀ (L : List EnumEntry) (m : EnumMap) (rest : List Tok), WFMap m →
      m.value_size = vs →
      m.flags &&& STEM_FLAGS_READONLY = 0 →
      L.Pairwise (fun a b => a.enum_value ≠ b.enum_value) →
      (∀ e ∈ L, stem_find_entry m e.enum_value = none) →
      (∀ e ∈ L, ∃ bs, e.value = StoredVal.copyv bs ∧ bs.length = vs) →
      (∀ e ∈ L, e.name = none ∨
        ∃ s, e.name = some s ∧ 0 < s.length ∧ s.length < 65536) →
      ∃ mF, parseEntries L.length m vs ((L.map (encodeEntry vs)).flatten ++ rest)
          = Except.ok mF ∧
        WFMap mF ∧ mF.count = m.count + L.length ∧
        mF.value_size = m.value_size ∧ mF.flags = m.flags ∧
        (∀ e ∈ L, stem_find_entry mF e.enum_value = some
          { enum_value := e.enum_value
          , name := if m.flags &&& STEM_FLAGS_NO_NAMES = 0 then e.name else none
          , value := e.value }) ∧
        (∀ k, (∀ e ∈ L, e.enum_value ≠ k) →
          stem_find_entry mF k = stem_find_entry m k) := by
  intro L
  induction L with
  | nil =>
    intro m rest w hvsm hro hd hfresh hval hname
    exact ⟨m, rfl, w, by simp, rfl, rfl, by simp, fun k _ => rfl⟩
  | cons e es ih =>
    intro m rest w hvsm hro hd hfresh hval hname
    have hd2 := (List.pairwise_cons.1 hd).2
    have hhead := (List.pairwise_cons.1 hd).1
    obtain ⟨bs, hbs, hbslen⟩ := hval e (List.mem_cons_self ..)
    have hfe : stem_find_entry m e.enum_value = none :=
      hfresh e (List.mem_cons_self ..)
    -- the name tokens and the readName result, by cases on the name
    rcases hname e (List.mem_cons_self ..) with hn0 | ⟨s, hs, hslen, hsmax⟩
    · -- NULL name
      have hstream : ((e :: es).map (encodeEntry vs)).flatten ++ rest
          = Tok.intT e.enum_value :: Tok.u16 0 :: Tok.bytes bs ::
            ((es.map (encodeEntry vs)).flatten ++ rest) := by
        simp [encodeEntry, hn0, hvs, hbs, valBytes]
      rw [hstream, List.length_cons]
      rw [parseEntries_cons_eq (readName_zero _) (readValue_pos hvs bs _ hbslen)]
      have spec := associate_ok w hro hfe 1 bs none
      set m1 := (stdem_associate_ex m e.enum_value 1 bs none).2 with hm1
      have hae : stdem_associate_ex m e.enum_value 1 bs none
          = (StemError.success, m1) := by
        rw [← spec.1]
      rw [hae]
      have hfresh2 : ∀ x ∈ es, stem_find_entry m1 x.enum_value = none := by
        intro x hx
        rw [spec.2.2.2.2.2.2 x.enum_value (fun hEq => hhead x hx hEq.symm)]
        exact hfresh x (List.mem_cons_of_mem _ hx)
      have hval2 : ∀ x ∈ es, ∃ b2, x.value = StoredVal.copyv b2 ∧ b2.length = vs :=
        fun x hx => hval x (List.mem_cons_of_mem _ hx)
      have hname2 : ∀ x ∈ es, x.name = none ∨
          ∃ s, x.name = some s ∧ 0 < s.length ∧ s.length < 65536 :=
        fun x hx => hname x (List.mem_cons_of_mem _ hx)
      obtain ⟨mF, hF, wF, hcF, hvF, hflF, hlookF, hpresF⟩ :=
        ih m1 rest spec.2.1 (spec.2.2.2.1.trans hvsm)
          (by rw [spec.2.2.2.2.1]; exact hro) hd2 hfresh2 hval2 hname2
      refine ⟨mF, hF, wF, ?_, ?_, ?_, ?_, ?_⟩
      · rw [hcF, spec.2.2.1]; omega
      · rw [hvF, spec.2.2.2.1]
      · rw [hflF, spec.2.2.2.2.1]
      · intro x hx
        rcases List.mem_cons.1 hx with rfl | hx2
        · rw [hpresF x.enum_value (fun y hy hEq => hhead y hy hEq.symm)]
          rw [spec.2.2.2.2.2.1]
          have hvspos : 0 < m.value_size := by omega
          have htake : bs.take m.value_size = bs := by
            apply List.take_of_length_le
            rw [hbslen, hvsm]
          simp [stem_create_entry, hvspos, htake, hn0, hbs]
        · rw [hlookF x hx2, spec.2.2.2.2.1]
      · intro k hk
        rw [hpresF k (fun y hy => hk y (List.mem_cons_of_mem _ hy))]
        exact spec.2.2.2.2.2.2 k
          (fun hEq => hk e (List.mem_cons_self ..) hEq.symm)
    · -- non-NULL name of length in [1, 65535]
      have hmod : s.length % 65536 = s.length := Nat.mod_eq_of_lt hsmax
      have htk : s.take s.length = s := List.take_of_length_le le_rfl
      have hstream : ((e :: es).map (encodeEntry vs)).flatten ++ rest
          = Tok.intT e.enum_value :: Tok.u16 s.length :: Tok.bytes s ::
            Tok.bytes bs :: ((es.map (encodeEntry vs)).flatten ++ rest) := by
        simp [encodeEntry, hs, hvs, hbs, valBytes, hmod, hslen, htk]
      rw [hstream, List.length_cons]
      rw [parseEntries_cons_eq (readName_pos hslen s _ rfl)
        (readValue_pos hvs bs _ hbslen)]
      have spec := associate_ok w hro hfe 1 bs (some s)
      set m1 := (stdem_associate_ex m e.enum_value 1 bs (some s)).2 with hm1
      have hae : stdem_associate_ex m e.enum_value 1 bs (some s)
          = (StemError.success, m1) := by
        rw [← spec.1]
      rw [hae]
      have hfresh2 : ∀ x ∈ es, stem_find_entry m1 x.enum_value = none := by
        intro x hx
        rw [spec.2.2.2.2.2.2 x.enum_value (fun hEq => hhead x hx hEq.symm)]
        exact hfresh x (List.mem_cons_of_mem _ hx)
      have hval2 : ∀ x ∈ es, ∃ b2, x.value = StoredVal.copyv b2 ∧ b2.length = vs :=
        fun x hx => hval x (List.mem_cons_of_mem _ hx)
      have hname2 : ∀ x ∈ es, x.name = none ∨
          ∃ s, x.name = some s ∧ 0 < s.length ∧ s.length < 65536 :=
        fun x hx => hname x (List.mem_cons_of_mem _ hx)
      obtain ⟨mF, hF, wF, hcF, hvF, hflF, hlookF, hpresF⟩ :=
        ih m1 rest spec.2.1 (spec.2.2.2.1.trans hvsm)
          (by rw [spec.2.2.2.2.1]; exact hro) hd2 hfresh2 hval2 hname2
      refine ⟨mF, hF, wF, ?_, ?_, ?_, ?_, ?_⟩
      · rw [hcF, spec.2.2.1]; omega
      · rw [hvF, spec.2.2.2.1]
      · rw [hflF, spec.2.2.2.2.1]
      · intro x hx
        rcases List.mem_cons.1 hx with rfl | hx2
        · rw [hpresF x.enum_value (fun y hy hEq => hhead y hy hEq.symm)]
          rw [spec.2.2.2.2.2.1]
          have hvspos : 0 < m.value_size := by omega
          have htake : bs.take m.value_size = bs := by
            apply List.take_of_length_le
            rw [hbslen, hvsm]
          simp [stem_create_entry, hvspos, htake, hs, hbs]
        · rw [hlookF x hx2, spec.2.2.2.2.1]
      · intro k hk
        rw [hpresF k (fun y hy => hk y (List.mem_cons_of_mem _ hy))]
        exact spec.2.2.2.2.2.2 k
          (fun hEq => hk e (List.mem_cons_self ..) hEq.symm)

end Stdem

namespace Stdem

/-! ## Flags are never changed by any operation; populated reachable maps
are never read-only -/

theorem resize_flags_any (m : EnumMap) (ns : Nat) :
    (stem_resize_map m ns).2.flags = m.flags := by
  unfold stem_resize_map
  split <;> rfl

theorem associate_flags (m : EnumMap) (k : Int) (ptr : Nat) (bytes : List Nat)
    (name : Option (List Nat)) :
    (stdem_associate_ex m k ptr bytes name).2.flags = m.flags := by
  unfold stdem_associate_ex
  by_cases hro : m.flags &&& STEM_FLAGS_READONLY ≠ 0
  · rw [if_pos hro]
  · rw [if_neg hro]
    by_cases hex : (stem_find_entry m k).isSome
    · rw [if_pos hex]
    · rw [if_neg hex]
      by_cases hload : 4 * m.count > 3 * m.num_buckets
      · rw [if_pos hload]
        by_cases hns : m.num_buckets * 2 = 0
        · unfold stem_resize_map
          rw [if_pos hns]
          simp
        · unfold stem_resize_map
          rw [if_neg hns]
          simp [insertEntry]
      · rw [if_neg hload]
        simp [insertEntry]

/-- A failing `stdem_associate_ex` call returns the map unchanged (no
well-formedness needed: the resize itself leaves the map untouched when it
fails). -/
theorem associate_nonsuccess_eq {m : EnumMap} {k : Int} {ptr : Nat}
    {bytes : List Nat} {name : Option (List Nat)}
    (h : (stdem_associate_ex m k ptr bytes name).1 ≠ StemError.success) :
    (stdem_associate_ex m k ptr bytes name).2 = m := by
  unfold stdem_associate_ex at h ⊢
  by_cases hro : m.flags &&& STEM_FLAGS_READONLY ≠ 0
  · rw [if_pos hro]
  · rw [if_neg hro] at h ⊢
    by_cases hex : (stem_find_entry m k).isSome
    · rw [if_pos hex]
    · rw [if_neg hex] at h ⊢
      by_cases hload : 4 * m.count > 3 * m.num_buckets
      · rw [if_pos hload] at h ⊢
        by_cases hns : m.num_buckets * 2 = 0
        · unfold stem_resize_map
          rw [if_pos hns]
          simp
        · unfold stem_resize_map at h ⊢
          rw [if_neg hns] at h ⊢
          simp at h
      · rw [if_neg hload] at h ⊢
        simp at h

theorem associate_success_ro {m m2 : EnumMap} {k : Int} {ptr : Nat}
    {bytes : List Nat} {name : Option (List Nat)}
    (h : stdem_associate_ex m k ptr bytes name = (StemError.success, m2)) :
    m.flags &&& STEM_FLAGS_READONLY = 0 := by
  by_contra hro
  unfold stdem_associate_ex at h
  rw [if_pos hro] at h
  cases h

theorem copyLoop_flags {L : List EnumEntry} :
    ∀ {m mF : EnumMap}, copyLoop m L = Except.ok mF → mF.flags = m.flags := by
  induction L with
  | nil => intro m mF h; cases h; rfl
  | cons e es ih =>
    intro m mF h
    unfold copyLoop at h
    rcases hr : replayAssoc m e with ⟨err, m2⟩
    rw [hr] at h
    cases err with
    | success =>
      have h2 : m2.flags = m.flags := by
        have := congrArg (fun p => p.2.flags) hr
        simpa [replayAssoc, associate_flags] using this.symm
      rw [ih h, h2]
    | invalidArg => cases h
    | outOfMemory => cases h
    | indexOutOfBounds => cases h
    | notFound => cases h
    | alreadyExists => cases h
    | uninitialized => cases h

theorem copyLoop_cons_ro {m mF : EnumMap} {e : EnumEntry} {L : List EnumEntry}
    (h : copyLoop m (e :: L) = Except.ok mF) :
    m.flags &&& STEM_FLAGS_READONLY = 0 := by
  unfold copyLoop at h
  rcases hr : replayAssoc m e with ⟨err, m2⟩
  rw [hr] at h
  cases err with
  | success => exact associate_success_ro hr
  | invalidArg => cases h
  | outOfMemory => cases h
  | indexOutOfBounds => cases h
  | notFound => cases h
  | alreadyExists => cases h
  | uninitialized => cases h

theorem mergeLoop2_flags {ow : Bool} :
    ∀ {L : List EnumEntry} {m mF : EnumMap},
      mergeLoop2 ow m L = Except.ok mF → mF.flags = m.flags := by
  intro L
  induction L with
  | nil => intro m mF h; cases h; rfl
  | cons e es ih =>
    intro m mF h
    unfold mergeLoop2 at h
    rcases hfind : stem_find_entry m e.enum_value with _ | a
    · rw [hfind] at h
      rcases hr : replayAssoc m e with ⟨err, m2⟩
      rw [hr] at h
      cases err with
      | success =>
        have h2 : m2.flags = m.flags := by
          have := congrArg (fun p => p.2.flags) hr
          simpa [replayAssoc, associate_flags] using this.symm
        rw [ih h, h2]
      | invalidArg => cases h
      | outOfMemory => cases h
      | indexOutOfBounds => cases h
      | notFound => cases h
      | alreadyExists => cases h
      | uninitialized => cases h
    · rw [hfind] at h
      cases ow with
      | true =>
        simp only [if_true] at h
        rw [ih h]
        rfl
      | false =>
        simp only [if_false] at h
        exact ih h

theorem mergeLoop2_cons_ro {ow : Bool} {m mF : EnumMap} {e : EnumEntry}
    {L : List EnumEntry} (h : mergeLoop2 ow m (e :: L) = Except.ok mF)
    (hfind : stem_find_entry m e.enum_value = none) :
    m.flags &&& STEM_FLAGS_READONLY = 0 := by
  unfold mergeLoop2 at h
  rw [hfind] at h
  rcases hr : replayAssoc m e with ⟨err, m2⟩
  rw [hr] at h
  cases err with
  | success => exact associate_success_ro hr
  | invalidArg => cases h
  | outOfMemory => cases h
  | indexOutOfBounds => cases h
  | notFound => cases h
  | alreadyExists => cases h
  | uninitialized => cases h

end Stdem

namespace Stdem

theorem parseEntries_flags :
    ∀ {n : Nat} {vs : Nat} {st : List Tok} {m mF : EnumMap},
      parseEntries n m vs st = Except.ok mF → mF.flags = m.flags := by
  intro n
  induction n with
  | zero => intro vs st m mF h; cases h; rfl
  | succ n ih =>
    intro vs st m mF h
    rcases st with _ | ⟨t1, st1⟩
    · cases h
    · cases t1 with
      | intT k =>
        rcases st1 with _ | ⟨t2, st2⟩
        · cases h
        · cases t2 with
          | u16 nlen =>
            have h2 : (match readName nlen st2 with
                | Except.error e => Except.error e
                | Except.ok (name, st3) =>
                  match readValue vs st3 with
                  | Except.error e => Except.error e
                  | Except.ok (ptr, bytes, st4) =>
                    match stdem_associate_ex m k ptr bytes name with
                    | (StemError.success, m2) => parseEntries n m2 vs st4
                    | (err, _) => Except.error err)
                = Except.ok mF := h
            rcases hn : readName nlen st2 with e | ⟨name, st3⟩
            · rw [hn] at h2; cases h2
            · rw [hn] at h2
              have h3 : (match readValue vs st3 with
                  | Except.error e => Except.error e
                  | Except.ok (ptr, bytes, st4) =>
                    match stdem_associate_ex m k ptr bytes name with
                    | (StemError.success, m2) => parseEntries n m2 vs st4
                    | (err, _) => Except.error err)
                  = Except.ok mF := h2
              rcases hv : readValue vs st3 with e | ⟨ptr, bytes, st4⟩
              · rw [hv] at h3; cases h3
              · rw [hv] at h3
                have h4 : (match stdem_associate_ex m k ptr bytes name with
                    | (StemError.success, m2) => parseEntries n m2 vs st4
                    | (err, _) => Except.error err) = Except.ok mF := h3
                rcases hr : stdem_associate_ex m k ptr bytes name with ⟨err, m2⟩
                rw [hr] at h4
                cases err with
                | success =>
                  have hfl : m2.flags = m.flags := by
                    have := congrArg (fun p => p.2.flags) hr
                    simpa [associate_flags] using this.symm
                  rw [ih h4, hfl]
                | invalidArg => cases h4
                | outOfMemory => cases h4
                | indexOutOfBounds => cases h4
                | notFound => cases h4
                | alreadyExists => cases h4
                | uninitialized => cases h4
          | u32 x => cases h
          | usize x => cases h
          | flagsT x => cases h
          | intT x => cases h
          | bytes x => cases h
          | ptrT x => cases h
      | u32 x => cases h
      | u16 x => cases h
      | usize x => cases h
      | flagsT x => cases h
      | bytes x => cases h
      | ptrT x => cases h

theorem parseEntries_pos_ro {n : Nat} {vs : Nat} {st : List Tok} {m mF : EnumMap}
    (h : parseEntries (n + 1) m vs st = Except.ok mF) :
    m.flags &&& STEM_FLAGS_READONLY = 0 := by
  rcases st with _ | ⟨t1, st1⟩
  · cases h
  · cases t1 with
    | intT k =>
      rcases st1 with _ | ⟨t2, st2⟩
      · cases h
      · cases t2 with
        | u16 nlen =>
          have h2 : (match readName nlen st2 with
              | Except.error e => Except.error e
              | Except.ok (name, st3) =>
                match readValue vs st3 with
                | Except.error e => Except.error e
                | Except.ok (ptr, bytes, st4) =>
                  match stdem_associate_ex m k ptr bytes name with
                  | (StemError.success, m2) => parseEntries n m2 vs st4
                  | (err, _) => Except.error err)
              = Except.ok mF := h
          rcases hn : readName nlen st2 with e | ⟨name, st3⟩
          · rw [hn] at h2; cases h2
          · rw [hn] at h2
            have h3 : (match readValue vs st3 with
                | Except.error e => Except.error e
                | Except.ok (ptr, bytes, st4) =>
                  match stdem_associate_ex m k ptr bytes name with
                  | (StemError.success, m2) => parseEntries n m2 vs st4
                  | (err, _) => Except.error err)
                = Except.ok mF := h2
            rcases hv : readValue vs st3 with e | ⟨ptr, bytes, st4⟩
            · rw [hv] at h3; cases h3
            · rw [hv] at h3
              have h4 : (match stdem_associate_ex m k ptr bytes name with
                  | (StemError.success, m2) => parseEntries n m2 vs st4
                  | (err, _) => Except.error err) = Except.ok mF := h3
              rcases hr : stdem_associate_ex m k ptr bytes name with ⟨err, m2⟩
              rw [hr] at h4
              cases err with
              | success => exact associate_success_ro hr
              | invalidArg => cases h4
              | outOfMemory => cases h4
              | indexOutOfBounds => cases h4
              | notFound => cases h4
              | alreadyExists => cases h4
              | uninitialized => cases h4
        | u32 x => cases h
        | usize x => cases h
        | flagsT x => cases h
        | intT x => cases h
        | bytes x => cases h
        | ptrT x => cases h
    | u32 x => cases h
    | u16 x => cases h
    | usize x => cases h
    | flagsT x => cases h
    | bytes x => cases h
    | ptrT x => cases h

/-- A reachable map that holds at least one entry is never read-only: a
read-only map can never acquire entries through the API (associate rejects
it, and copy/merge/deserialize replay through associate). -/
theorem reachable_pos_not_readonly {m : EnumMap} (h : Reachable m)
    (hpos : 0 < m.count) : m.flags &&& STEM_FLAGS_READONLY = 0 := by
  induction h with
  | created n vs fl m hc =>
    have := (create_spec hc).2.1
    omega
  | associated m k ptr bytes name hre ih =>
    by_cases hs : (stdem_associate_ex m k ptr bytes name).1 = StemError.success
    · have heq : stdem_associate_ex m k ptr bytes name
          = (StemError.success, (stdem_associate_ex m k ptr bytes name).2) := by
        rw [← hs]
      have hro := associate_success_ro heq
      rw [associate_flags]
      exact hro
    · have heq := associate_nonsuccess_eq hs
      rw [heq] at hpos ⊢
      exact ih hpos
  | cleared m hre ih =>
    unfold stdem_clear at hpos ⊢
    by_cases hro : m.flags &&& STEM_FLAGS_READONLY ≠ 0
    · rw [if_pos hro] at hpos ⊢
      exact ih hpos
    · rw [if_neg hro] at hpos
      simp at hpos
  | copied m m2 hre hc ih =>
    unfold stdem_copy at hc
    rcases hcr : stdem_create_ex m.count m.value_size m.flags with e | m0
    · rw [hcr] at hc; cases hc
    · rw [hcr] at hc
      have hspec := create_spec hcr
      have hflags : m2.flags = m.flags := (copyLoop_flags hc).trans hspec.2.2.2.1
      have hmpos : 0 < m.count := hspec.2.2.2.2.2.2
      rw [hflags]
      exact ih hmpos
  | merged m1 m2 m3 ow hre1 hre2 hm ih1 ih2 =>
    unfold stdem_merge at hm
    by_cases hvs : m1.value_size ≠ m2.value_size
    · rw [if_pos hvs] at hm; cases hm
    · rw [if_neg hvs] at hm
      rcases hcr : stdem_create_ex (m1.count + m2.count) m1.value_size
          (m1.flags ||| m2.flags) with e | m0
      · rw [hcr] at hm; cases hm
      · rw [hcr] at hm
        have hspec := create_spec hcr
        have hm2 : (match copyLoop m0 (entriesList m1) with
            | Except.error e => Except.error e
            | Except.ok mA => mergeLoop2 ow mA (entriesList m2))
            = Except.ok m3 := hm
        rcases hl : copyLoop m0 (entriesList m1) with e | mA
        · rw [hl] at hm2; cases hm2
        · rw [hl] at hm2
          have hfl3 : m3.flags = m0.flags :=
            (mergeLoop2_flags hm2).trans (copyLoop_flags hl)
          rcases he1 : entriesList m1 with _ | ⟨e1, es1⟩
          · -- nothing replayed from map1; some map2 entry must have been
            -- inserted since m3.count > 0
            rw [he1] at hl
            have hmA : mA = m0 := (Except.ok.inj hl).symm
            subst hmA
            rcases he2 : entriesList m2 with _ | ⟨e2, es2⟩
            · rw [he2] at hm2
              have : m3 = mA := (Except.ok.inj hm2).symm
              rw [this] at hpos
              rw [hspec.2.1] at hpos
              omega
            · rw [he2] at hm2
              have hro0 := mergeLoop2_cons_ro hm2 (hspec.2.2.2.2.2.1 e2.enum_value)
              rw [hfl3]
              exact hro0
          · rw [he1] at hl
            have hro0 := copyLoop_cons_ro hl
            rw [hfl3]
            exact hro0
  | deserialized st m hd =>
    unfold stdem_deserialize at hd
    rcases st with _ | ⟨t1, st1⟩
    · cases hd
    · cases t1 with
      | u32 mg =>
        rcases st1 with _ | ⟨t2, st2⟩
        · cases hd
        · cases t2 with
          | u16 ver =>
            rcases st2 with _ | ⟨t3, st3⟩
            · cases hd
            · cases t3 with
              | usize cnt =>
                rcases st3 with _ | ⟨t4, st4⟩
                · cases hd
                · cases t4 with
                  | usize vs =>
                    rcases st4 with _ | ⟨t5, st5⟩
                    · cases hd
                    · cases t5 with
                      | flagsT fl =>
                        have h2 : (if mg ≠ STEM_MAGIC then
                              Except.error StemError.invalidArg
                            else if ver ≠ 1 then Except.error StemError.invalidArg
                            else match stdem_create_ex cnt vs fl with
                              | Except.error e => Except.error e
                              | Except.ok m0 => parseEntries cnt m0 vs st5)
                            = Except.ok m := hd
                        by_cases hmg : mg ≠ STEM_MAGIC
                        · rw [if_pos hmg] at h2; cases h2
                        · rw [if_neg hmg] at h2
                          by_cases hver : ver ≠ 1
                          · rw [if_pos hver] at h2; cases h2
                          · rw [if_neg hver] at h2
                            rcases hcr : stdem_create_ex cnt vs fl with e | m0
                            · rw [hcr] at h2; cases h2
                            · rw [hcr] at h2
                              have hspec := create_spec hcr
                              have hfl : m.flags = m0.flags := parseEntries_flags h2
                              cases cnt with
                              | zero =>
                                cases h2
                                rw [hspec.2.1] at hpos
                                omega
                              | succ n =>
                                rw [hfl]
                                exact parseEntries_pos_ro h2
                      | u32 x => cases hd
                      | u16 x => cases hd
                      | usize x => cases hd
                      | intT x => cases hd
                      | bytes x => cases hd
                      | ptrT x => cases hd
                  | u32 x => cases hd
                  | u16 x => cases hd
                  | flagsT x => cases hd
                  | intT x => cases hd
                  | bytes x => cases hd
                  | ptrT x => cases hd
              | u32 x => cases hd
              | u16 x => cases hd
              | flagsT x => cases hd
              | intT x => cases hd
              | bytes x => cases hd
              | ptrT x => cases hd
          | u32 x => cases hd
          | usize x => cases hd
          | flagsT x => cases hd
          | intT x => cases hd
          | bytes x => cases hd
          | ptrT x => cases hd
      | u16 x => cases hd
      | usize x => cases hd
      | flagsT x => cases hd
      | intT x => cases hd
      | bytes x => cases hd
      | ptrT x => cases hd

end Stdem

namespace Stdem

/-! ## Helper lemmas for the claims -/

/-- Replaying a stored entry through `stdem_associate_ex` reproduces its
value exactly, and its name up to the NO_NAMES flag of the target map
(given the value shapes that occur through the API). -/
theorem replayedEntry_eq {m0 : EnumMap} {e : EnumEntry}
    (h : ValWF m0.value_size e.value) :
    stem_create_entry m0 e.enum_value (valPtr e.value) (valBytes e.value) e.name
      = { enum_value := e.enum_value
        , name := if m0.flags &&& STEM_FLAGS_NO_NAMES = 0 then e.name else none
        , value := e.value } := by
  unfold stem_create_entry
  simp only [EnumEntry.mk.injEq]
  refine ⟨trivial, ?_, ?_⟩
  · -- name
    cases hn : e.name with
    | none => simp
    | some s => simp
  · -- value
    unfold ValWF at h
    by_cases hvs : m0.value_size = 0
    · rw [if_pos hvs] at h
      obtain ⟨p, hp⟩ := h
      rw [hp]
      simp [valPtr, hvs]
    · rw [if_neg hvs] at h
      rcases h with h0 | ⟨bs, hbs, hlen⟩
      · rw [h0]
        simp [valPtr]
      · rw [hbs]
        simp only [valPtr, valBytes]
        rw [if_pos (⟨by omega, one_ne_zero⟩ : 0 < m0.value_size ∧ (1 : Nat) ≠ 0)]
        rw [List.take_of_length_le (le_of_eq hlen)]

theorem reachable_assocAll (ks : List Int) :
    ∀ (m : EnumMap), Reachable m → Reachable (assocAll m ks) := by
  induction ks with
  | nil => intro m h; exact h
  | cons k ks ih =>
    intro m h
    exact ih _ (Reachable.associated m k 0 [] none h)

/-- ORing in the CopyValues bit does not change the NoNames bit. -/
theorem lor_copy_and_nonames (f : Nat) :
    (f ||| STEM_FLAGS_COPY_VALUES) &&& STEM_FLAGS_NO_NAMES
      = f &&& STEM_FLAGS_NO_NAMES := by
  show (f ||| 4) &&& 1 = f &&& 1
  apply Nat.eq_of_testBit_eq
  intro i
  rw [Nat.testBit_land, Nat.testBit_land, Nat.testBit_lor]
  rcases eq_or_ne i 0 with rfl | hi
  · have h4 : (4 : Nat).testBit 0 = false := by decide
    rw [h4]
    simp
  · have h1 : (1 : Nat).testBit i = false := by
      rw [show (1 : Nat) = 2 ^ 0 from rfl, Nat.testBit_two_pow]
      simpa using fun hEq => hi hEq.symm
    rw [h1]
    simp

/-- With its `calloc` succeeding, the oracle resize equals the plain one. -/
theorem resize_a_eq {pl : AllocPlan} (hpl : pl.resizeOk = true) (m : EnumMap)
    (ns : Nat) : stem_resize_map_a pl m ns = stem_resize_map m ns := by
  unfold stem_resize_map_a stem_resize_map
  by_cases hns : ns = 0
  · rw [if_pos hns, if_pos hns]
  · rw [if_neg hns, if_neg hns, if_neg (by rw [hpl]; simp)]

end Stdem

namespace Stdem

/-! ## Claim theorems -/

/-- C2: every map reachable through a sequence of successful operations has
pairwise-distinct live keys, and re-associating an existing key fails with
`AlreadyExists` and returns the map bit-identically unchanged (so the
existing entry's value and name are untouched). -/
theorem C2_key_uniqueness (m : EnumMap) (h : Reachable m) :
    (entriesList m).Pairwise (fun a b => a.enum_value ≠ b.enum_value) ∧
    (∀ (k : Int) (ptr : Nat) (bytes : List Nat) (name : Option (List Nat)),
      (stem_find_entry m k).isSome →
      stdem_associate_ex m k ptr bytes name = (StemError.alreadyExists, m)) := by
  have w := reachable_wf h
  refine ⟨w.hdist, ?_⟩
  intro k ptr bytes name hex
  have hpos : 0 < m.count := by
    obtain ⟨e, he⟩ := Option.isSome_iff_exists.1 hex
    have hmem := ((find_eq_some_iff w).1 he).1
    have hne : entriesList m ≠ [] := by
      intro hnil
      rw [hnil] at hmem
      simp at hmem
    rw [w.hcount]
    exact List.length_pos.2 hne
  have hro := reachable_pos_not_readonly h hpos
  unfold stdem_associate_ex
  rw [if_neg (by simp [hro]), if_pos hex]

/-- C2 witness: a concrete reachable one-entry map rejects a duplicate key. -/
theorem C2_key_uniqueness_witness :
    stdem_associate_ex w_one 5 1 [3] (some [65])
      = (StemError.alreadyExists, w_one) :=
  (C2_key_uniqueness w_one
    (Reachable.associated w_base 5 0 [] none
      (Reachable.created 1 0 0 w_base rfl))).2 5 1 [3] (some [65])
    (by decide)

/-- C3 counterexample: `create(15, ...)` allocates 21 buckets, while
`max 16 (ceil (15 / 0.75)) = max 16 20 = 20`: the code computes
`floor(enum_count / 0.75) + 1`, not `ceil(enum_count / 0.75)`. -/
theorem C3_counterexample :
    stdem_create_ex 15 4 0 = Except.ok (mapOrEmpty (stdem_create_ex 15 4 0)) ∧
    (mapOrEmpty (stdem_create_ex 15 4 0)).num_buckets = 21 ∧
    (15 * 4 + 2) / 3 = 20 ∧ max 16 ((15 * 4 + 2) / 3) = 20 ∧ (21 : Nat) ≠ 20 :=
  ⟨rfl, by decide, by decide, by decide, by decide⟩

/-- C3 (amended): for every `expected_count > 0`, the initial bucket count is
16 when `expected_count ≤ 12`, and `floor(expected_count / 0.75) + 1`
(which always exceeds 16) otherwise. -/
theorem C3_initial_buckets (n vs fl : Nat) (m : EnumMap)
    (h : stdem_create_ex n vs fl = Except.ok m) :
    m.num_buckets = (if 12 < n then 4 * n / 3 + 1 else 16) ∧
    16 ≤ m.num_buckets := by
  unfold stdem_create_ex at h
  by_cases hn : n = 0
  · rw [if_pos hn] at h; cases h
  · rw [if_neg hn] at h
    have hm := (Except.ok.inj h).symm
    subst hm
    constructor
    · rfl
    · show 16 ≤ (if 12 < n then 4 * n / 3 + 1 else STEM_DEFAULT_BUCKETS)
      by_cases h12 : 12 < n
      · rw [if_pos h12]
        have : 13 ≤ n := h12
        have : 17 ≤ 4 * n / 3 := by
          calc 17 = 4 * 13 / 3 := by decide
            _ ≤ 4 * n / 3 := by
              apply Nat.div_le_div_right
              omega
        omega
      · rw [if_neg h12]
        exact Nat.le_refl 16

/-- C3 witness: creating with hint 5 gives 16 buckets, with hint 15 gives
`floor(15 / 0.75) + 1 = 21`. -/
theorem C3_initial_buckets_witness :
    c1_base.num_buckets = 16 ∧
    (mapOrEmpty (stdem_create_ex 15 4 0)).num_buckets = 21 :=
  ⟨((C3_initial_buckets 5 0 0 c1_base rfl).1).trans (by decide),
   ((C3_initial_buckets 15 4 0 (mapOrEmpty (stdem_create_ex 15 4 0))
     rfl).1).trans (by decide)⟩

/-- C8: `get_name` on a map created with the NoNames flag reports NotFound
(and returns NULL), whether or not the key exists. -/
theorem C8_no_names_not_found (m : EnumMap) (k : Int)
    (h : m.flags &&& STEM_FLAGS_NO_NAMES ≠ 0) :
    stdem_get_name_ex m k = (StemError.notFound, none) := by
  unfold stdem_get_name_ex
  rw [if_pos h]

/-- C8 witness: a NoNames map rejects `get_name` for an absent key and for a
present key alike. -/
theorem C8_no_names_witness :
    stdem_get_name_ex (stdem_associate_ex wC8_base 3 0 [] (some [65])).2 3
        = (StemError.notFound, none) ∧
    stdem_get_name_ex wC8_base 99 = (StemError.notFound, none) :=
  ⟨C8_no_names_not_found _ 3 (by decide),
   C8_no_names_not_found wC8_base 99 (by decide)⟩

/-- C9: the storage mode never consults the CopyValues flag: entry creation
behaves identically with the flag ORed in, and on a `value_size = 0` map the
raw caller pointer is stored (and returned by `get_value`) even when
CopyValues is set. -/
theorem C9_copy_values_flag_ignored :
    (∀ (m : EnumMap) (k : Int) (ptr : Nat) (bytes : List Nat)
        (name : Option (List Nat)), m.value_size = 0 →
      (stem_create_entry m k ptr bytes name).value = StoredVal.ref ptr) ∧
    (∀ (m : EnumMap) (k : Int) (ptr : Nat) (bytes : List Nat)
        (name : Option (List Nat)),
      stem_create_entry { m with flags := m.flags ||| STEM_FLAGS_COPY_VALUES }
          k ptr bytes name
        = stem_create_entry m k ptr bytes name) ∧
    (∀ (m m2 : EnumMap) (k : Int) (ptr : Nat) (bytes : List Nat)
        (name : Option (List Nat)), WFMap m → m.value_size = 0 →
      stdem_associate_ex m k ptr bytes name = (StemError.success, m2) →
      stdem_get_value_ex m2 k = (StemError.success, some (StoredVal.ref ptr))) := by
  refine ⟨?_, ?_, ?_⟩
  · intro m k ptr bytes name hvs
    unfold stem_create_entry
    simp [hvs]
  · intro m k ptr bytes name
    unfold stem_create_entry
    simp only [lor_copy_and_nonames]
  · intro m m2 k ptr bytes name w hvs h
    have inv := associate_success_inv w h
    unfold stdem_get_value_ex
    rw [inv.2.2.2.2.2.2.1]
    unfold stem_create_entry
    simp [hvs]

/-- C9 witness: with CopyValues set on a `value_size = 0` map, associate
stores and returns the raw pointer 42. -/
theorem C9_copy_values_flag_ignored_witness :
    stdem_get_value_ex (stdem_associate_ex wC9_base 7 42 [] none).2 7
      = (StemError.success, some (StoredVal.ref 42)) :=
  C9_copy_values_flag_ignored.2.2 wC9_base _ 7 42 [] none
    (@create_spec 1 0 STEM_FLAGS_COPY_VALUES wC9_base rfl).1
    (by decide) (by decide)

/-- C10: an expected count of 0 is rejected by create, so copying an empty
map and merging two empty maps both fail with InvalidArgument. -/
theorem C10_empty_copy_merge_rejected :
    (∀ vs fl : Nat, stdem_create_ex 0 vs fl = Except.error StemError.invalidArg) ∧
    (∀ m : EnumMap, m.count = 0 →
      stdem_copy m = Except.error StemError.invalidArg) ∧
    (∀ (m1 m2 : EnumMap) (ow : Bool), m1.count = 0 → m2.count = 0 →
      stdem_merge m1 m2 ow = Except.error StemError.invalidArg) := by
  refine ⟨?_, ?_, ?_⟩
  · intro vs fl
    unfold stdem_create_ex
    rw [if_pos rfl]
  · intro m h
    unfold stdem_copy
    rw [h]
    rfl
  · intro m1 m2 ow h1 h2
    unfold stdem_merge
    by_cases hvs : m1.value_size ≠ m2.value_size
    · rw [if_pos hvs]
    · rw [if_neg hvs, h1, h2]
      rfl

/-- C10 witness: concrete empty maps are rejected by copy and merge. -/
theorem C10_empty_copy_merge_rejected_witness :
    stdem_copy w_base = Except.error StemError.invalidArg ∧
    stdem_merge w_base cm7_base true = Except.error StemError.invalidArg := by
  refine ⟨C10_empty_copy_merge_rejected.2.1 w_base (by decide), ?_⟩
  exact C10_empty_copy_merge_rejected.2.2 w_base cm7_base true (by decide) (by decide)

end Stdem

namespace Stdem

/-- C1 counterexample: from a reachable 12-entry, 16-bucket map (load exactly
0.75), associating a 13th key succeeds without growing the table, leaving
`count / num_buckets = 13/16 > 0.75` immediately after the call returns. -/
theorem C1_counterexample :
    Reachable c1_m12 ∧
    c1_m12.count = 12 ∧ c1_m12.num_buckets = 16 ∧
    (stdem_associate_ex c1_m12 12 0 [] none).1 = StemError.success ∧
    (stdem_associate_ex c1_m12 12 0 [] none).2.count = 13 ∧
    (stdem_associate_ex c1_m12 12 0 [] none).2.num_buckets = 16 ∧
    4 * (stdem_associate_ex c1_m12 12 0 [] none).2.count
      > 3 * (stdem_associate_ex c1_m12 12 0 [] none).2.num_buckets := by
  refine ⟨?_, by decide, by decide, by decide, by decide, by decide, by decide⟩
  exact reachable_assocAll _ c1_base (Reachable.created 5 0 0 c1_base rfl)

/-- C1 (amended): the table is grown (doubled and rehashed) exactly when the
load BEFORE the insert exceeds 0.75; consequently after every successful
associate the load exceeds 0.75 by at most one entry:
`count - 1 ≤ 0.75 * num_buckets` (and the inductive bound
`count ≤ 0.75 * num_buckets + 1` is maintained). -/
theorem C1_load_factor (m m2 : EnumMap) (k : Int) (ptr : Nat)
    (bytes : List Nat) (name : Option (List Nat))
    (hinv : 4 * m.count ≤ 3 * m.num_buckets + 4) (hnb : 2 ≤ m.num_buckets)
    (h : stdem_associate_ex m k ptr bytes name = (StemError.success, m2)) :
    (m2.num_buckets = if 4 * m.count > 3 * m.num_buckets
      then m.num_buckets * 2 else m.num_buckets) ∧
    m2.count = m.count + 1 ∧
    4 * (m2.count - 1) ≤ 3 * m2.num_buckets ∧
    4 * m2.count ≤ 3 * m2.num_buckets + 4 ∧ 2 ≤ m2.num_buckets := by
  have hns : 0 < m.num_buckets * 2 := by omega
  unfold stdem_associate_ex at h
  by_cases hro : m.flags &&& STEM_FLAGS_READONLY ≠ 0
  · rw [if_pos hro] at h
    simp at h
  · rw [if_neg hro] at h
    by_cases hex : (stem_find_entry m k).isSome
    · rw [if_pos hex] at h
      simp at h
    · rw [if_neg hex] at h
      by_cases hload : 4 * m.count > 3 * m.num_buckets
      · rw [if_pos hload] at h
        rw [if_neg (by simp [resize_fst (m := m) hns])] at h
        have hfields := resize_fields (m := m) hns
        have hm2 : m2 = insertEntry (stem_resize_map m (m.num_buckets * 2)).2
            (stem_create_entry (stem_resize_map m (m.num_buckets * 2)).2
              k ptr bytes name) := by
          have := congrArg Prod.snd h
          simpa using this.symm
        subst hm2
        rw [if_pos hload]
        have hc : (insertEntry (stem_resize_map m (m.num_buckets * 2)).2
            (stem_create_entry (stem_resize_map m (m.num_buckets * 2)).2
              k ptr bytes name)).count
            = (stem_resize_map m (m.num_buckets * 2)).2.count + 1 := rfl
        have hb : (insertEntry (stem_resize_map m (m.num_buckets * 2)).2
            (stem_create_entry (stem_resize_map m (m.num_buckets * 2)).2
              k ptr bytes name)).num_buckets
            = (stem_resize_map m (m.num_buckets * 2)).2.num_buckets := rfl
        rw [hc, hb, hfields.1, hfields.2.2.2]
        refine ⟨rfl, rfl, ?_, ?_, ?_⟩ <;> omega
      · rw [if_neg hload] at h
        have hcond : ¬((StemError.success, m).1 ≠ StemError.success) := by simp
        rw [if_neg hcond] at h
        have hm2 : m2 = insertEntry m (stem_create_entry m k ptr bytes name) := by
          have := congrArg Prod.snd h
          simpa using this.symm
        subst hm2
        rw [if_neg hload]
        have hc : (insertEntry m (stem_create_entry m k ptr bytes name)).count
            = m.count + 1 := rfl
        have hb : (insertEntry m (stem_create_entry m k ptr bytes name)).num_buckets
            = m.num_buckets := rfl
        rw [hc, hb]
        refine ⟨rfl, rfl, ?_, ?_, ?_⟩ <;> omega

/-- C1 witness: a successful insert into a fresh 16-bucket map keeps the
amended load bound. -/
theorem C1_load_factor_witness :
    4 * ((stdem_associate_ex c1_base 0 0 [] none).2.count - 1)
      ≤ 3 * (stdem_associate_ex c1_base 0 0 [] none).2.num_buckets :=
  (C1_load_factor c1_base (stdem_associate_ex c1_base 0 0 [] none).2 0 0 [] none
    (by decide) (by decide) (by decide)).2.2.1

/-- C4 counterexample: with the load above the threshold, a resize that
succeeds followed by a failing name `strdup` returns OutOfMemory but leaves
the bucket array grown: the map is NOT bit-identical to its pre-call state
(its `num_buckets` doubled from 16 to 32), though its entries are intact. -/
theorem C4_counterexample :
    Reachable c1_m13 ∧
    4 * c1_m13.count > 3 * c1_m13.num_buckets ∧
    c1_m13.num_buckets = 16 ∧
    (stdem_associate_a planNameFail c1_m13 100 0 [] (some [65])).1
      = StemError.outOfMemory ∧
    (stdem_associate_a planNameFail c1_m13 100 0 [] (some [65])).2.num_buckets
      = 32 ∧
    (stdem_associate_a planNameFail c1_m13 100 0 [] (some [65])).2 ≠ c1_m13 := by
  refine ⟨?_, by decide, by decide, by decide, by decide, by decide⟩
  exact reachable_assocAll _ c1_base (Reachable.created 5 0 0 c1_base rfl)

/-- C4 (amended): whenever `stdem_associate_ex` fails with OutOfMemory
(whatever allocation failed), the map keeps its count, its value size, its
flags, and every key's entry (value and name) unchanged — no partially
linked entry exists; and if the failing allocation is the resize's own
`calloc`, the map is bit-identical to its pre-call state.  Only the bucket
array may remain grown, when the resize succeeded and entry construction
then failed. -/
theorem C4_oom_rollback (pl : AllocPlan) (m m2 : EnumMap) (k : Int)
    (ptr : Nat) (bytes : List Nat) (name : Option (List Nat)) (w : WFMap m)
    (h : stdem_associate_a pl m k ptr bytes name = (StemError.outOfMemory, m2)) :
    m2.count = m.count ∧ m2.value_size = m.value_size ∧ m2.flags = m.flags ∧
    (∀ k2, stem_find_entry m2 k2 = stem_find_entry m k2) ∧
    (pl.resizeOk = false → 4 * m.count > 3 * m.num_buckets → m2 = m) := by
  have hns : 0 < m.num_buckets * 2 := by
    have := w.hpos; omega
  unfold stdem_associate_a at h
  by_cases hro : m.flags &&& STEM_FLAGS_READONLY ≠ 0
  · rw [if_pos hro] at h
    simp at h
  · rw [if_neg hro] at h
    by_cases hex : (stem_find_entry m k).isSome
    · rw [if_pos hex] at h
      simp at h
    · rw [if_neg hex] at h
      by_cases hload : 4 * m.count > 3 * m.num_buckets
      · rw [if_pos hload] at h
        by_cases hpl : pl.resizeOk = true
        · rw [resize_a_eq hpl] at h
          rw [if_neg (by simp [resize_fst (m := m) hns])] at h
          have hfields := resize_fields (m := m) hns
          have wR := resize_wf w hns
          rcases hce : stem_create_entry_a pl
              (stem_resize_map m (m.num_buckets * 2)).2 k ptr bytes name
            with ⟨err, oe⟩
          rw [hce] at h
          cases err with
          | success =>
            cases oe with
            | some e => simp at h
            | none =>
              have hm2 : m2 = (stem_resize_map m (m.num_buckets * 2)).2 := by
                have := congrArg Prod.snd h
                simpa using this.symm
              exfalso
              have := congrArg Prod.fst h
              simp at this
          | outOfMemory =>
            have hm2 : m2 = (stem_resize_map m (m.num_buckets * 2)).2 := by
              have := congrArg Prod.snd h
              simpa using this.symm
            subst hm2
            refine ⟨hfields.1, hfields.2.1, hfields.2.2.1,
              resize_find w hns, ?_⟩
            intro hplf
            rw [hpl] at hplf
            cases hplf
          | invalidArg =>
            have := congrArg Prod.fst h
            simp at this
          | indexOutOfBounds =>
            have := congrArg Prod.fst h
            simp at this
          | notFound =>
            have := congrArg Prod.fst h
            simp at this
          | alreadyExists =>
            have := congrArg Prod.fst h
            simp at this
          | uninitialized =>
            have := congrArg Prod.fst h
            simp at this
        · have hplf : pl.resizeOk = false := by
            cases hb : pl.resizeOk with
            | true => exact absurd hb hpl
            | false => rfl
          unfold stem_resize_map_a at h
          rw [if_neg (show ¬(m.num_buckets * 2 = 0) by omega), if_pos hplf] at h
          rw [if_pos (show ((StemError.outOfMemory, m) : StemError × EnumMap).1
            ≠ StemError.success by simp)] at h
          have hm2 : m2 = m := by
            have := congrArg Prod.snd h
            simpa using this.symm
          subst hm2
          exact ⟨rfl, rfl, rfl, fun _ => rfl, fun _ _ => rfl⟩
      · rw [if_neg hload] at h
        have hcond : ¬((StemError.success, m).1 ≠ StemError.success) := by simp
        rw [if_neg hcond] at h
        rcases hce : stem_create_entry_a pl m k ptr bytes name with ⟨err, oe⟩
        rw [hce] at h
        cases err with
        | success =>
          cases oe with
          | some e => simp at h
          | none =>
            have := congrArg Prod.fst h
            simp at this
        | outOfMemory =>
          have hm2 : m2 = m := by
            have := congrArg Prod.snd h
            simpa using this.symm
          subst hm2
          exact ⟨rfl, rfl, rfl, fun _ => rfl, fun _ hl => absurd hl hload⟩
        | invalidArg =>
          have := congrArg Prod.fst h
          simp at this
        | indexOutOfBounds =>
          have := congrArg Prod.fst h
          simp at this
        | notFound =>
          have := congrArg Prod.fst h
          simp at this
        | alreadyExists =>
          have := congrArg Prod.fst h
          simp at this
        | uninitialized =>
          have := congrArg Prod.fst h
          simp at this

/-- C4 witness: the concrete OOM failure above keeps count and every lookup
of the 13-entry map intact. -/
theorem C4_oom_rollback_witness :
    (stdem_associate_a planNameFail c1_m13 100 0 [] (some [65])).2.count
        = c1_m13.count ∧
    stem_find_entry
        (stdem_associate_a planNameFail c1_m13 100 0 [] (some [65])).2 3
      = stem_find_entry c1_m13 3 := by
  have h := C4_oom_rollback planNameFail c1_m13
    (stdem_associate_a planNameFail c1_m13 100 0 [] (some [65])).2
    100 0 [] (some [65])
    (reachable_wf (reachable_assocAll _ c1_base
      (Reachable.created 5 0 0 c1_base rfl)))
    (by decide)
  exact ⟨h.1, h.2.2.2.1 3⟩

end Stdem

namespace Stdem

/-- C5: a successful copy of a populated map has the same count, and every
key present in the source yields the same `get_value` result (the same
stored bytes in copy mode, the same reference in reference mode) and the
same `get_name` result.  The value-shape hypothesis is what holds of every
map built through the API under the C caller contract (a non-NULL value
argument points at `value_size` readable bytes). -/
theorem C5_copy_roundtrip (m m2 : EnumMap) (w : WFMap m) (hpos : 0 < m.count)
    (hvals : ∀ e ∈ entriesList m, ValWF m.value_size e.value)
    (h : stdem_copy m = Except.ok m2) :
    m2.count = m.count ∧
    ∀ k, (stem_find_entry m k).isSome = true →
      stdem_get_value_ex m2 k = stdem_get_value_ex m k ∧
      stdem_get_name_ex m2 k = stdem_get_name_ex m k := by
  unfold stdem_copy at h
  rcases hc : stdem_create_ex m.count m.value_size m.flags with e | m0
  · rw [hc] at h; cases h
  · rw [hc] at h
    have h2 : copyLoop m0 (entriesList m) = Except.ok m2 := h
    have hspec := create_spec hc
    have hlenpos : 0 < (entriesList m).length := by
      rw [← w.hcount]; exact hpos
    have hne : entriesList m ≠ [] := by
      intro hnil; rw [hnil] at hlenpos; simp at hlenpos
    have hro0 : m0.flags &&& STEM_FLAGS_READONLY = 0 := by
      rcases hE : entriesList m with _ | ⟨e1, es1⟩
      · exact absurd hE hne
      · rw [hE] at h2
        exact copyLoop_cons_ro h2
    obtain ⟨mF, hF, wF, hcF, hvF, hflF, hlookF, hpresF⟩ :=
      copyLoop_spec (entriesList m) m0 hspec.1 hro0 w.hdist
        (fun e _ => hspec.2.2.2.2.2.1 e.enum_value)
    rw [hF] at h2
    have hm2 : m2 = mF := (Except.ok.inj h2).symm
    subst hm2
    constructor
    · rw [hcF, hspec.2.1, w.hcount]
      simp
    · intro k hk
      obtain ⟨e, he⟩ := Option.isSome_iff_exists.1 hk
      have hmem := (find_eq_some_iff w).1 he
      have hkk : e.enum_value = k := hmem.2
      subst hkk
      have hlook := hlookF e hmem.1
      have hrep : stem_create_entry m0 e.enum_value (valPtr e.value)
          (valBytes e.value) e.name
          = { enum_value := e.enum_value
            , name := if m0.flags &&& STEM_FLAGS_NO_NAMES = 0
                then e.name else none
            , value := e.value } := by
        apply replayedEntry_eq
        rw [hspec.2.2.1]
        exact hvals e hmem.1
      rw [hrep] at hlook
      rw [hspec.2.2.2.1] at hlook
      constructor
      · unfold stdem_get_value_ex
        rw [hlook, he]
      · unfold stdem_get_name_ex
        rw [hflF, hspec.2.2.2.1]
        by_cases hNN : m.flags &&& STEM_FLAGS_NO_NAMES ≠ 0
        · rw [if_pos hNN, if_pos hNN]
        · rw [if_neg hNN, if_neg hNN, hlook, he]
          have hNN0 : m.flags &&& STEM_FLAGS_NO_NAMES = 0 := by omega
          simp [hNN0]

end Stdem

namespace Stdem

/-- C5 witness: copying the concrete one-entry copy-mode map preserves count
and the key-0 value and name. -/
theorem C5_copy_roundtrip_witness :
    (mapOrEmpty (stdem_copy cm7)).count = cm7.count ∧
    stdem_get_value_ex (mapOrEmpty (stdem_copy cm7)) 0 = stdem_get_value_ex cm7 0 ∧
    stdem_get_name_ex (mapOrEmpty (stdem_copy cm7)) 0 = stdem_get_name_ex cm7 0 := by
  have hE : entriesList cm7
      = [{ enum_value := 0, name := some [], value := StoredVal.copyv [7] }] := by
    decide
  have hvals : ∀ e ∈ entriesList cm7, ValWF cm7.value_size e.value := by
    intro e he
    rw [hE] at he
    simp at he
    subst he
    unfold ValWF
    rw [if_neg (by decide)]
    exact Or.inr ⟨[7], rfl, rfl⟩
  have h := C5_copy_roundtrip cm7 (mapOrEmpty (stdem_copy cm7))
    (reachable_wf (Reachable.associated cm7_base 0 1 [7] (some [])
      (Reachable.created 1 1 0 cm7_base rfl)))
    (by decide) hvals rfl
  exact ⟨h.1, (h.2 0 (by decide)).1, (h.2 0 (by decide)).2⟩

/-- C6: for maps with equal value sizes sharing key `k`, a successful
`merge(A, B, false)` keeps A's value at `k` (the map1-derived entry is left
untouched), while a successful `merge(A, B, true)` ends with B's value at
`k` (byte-copied in copy mode, pointer-replaced in reference mode). -/
theorem C6_merge_conflict_policy (A B : EnumMap) (k : Int) (eA eB : EnumEntry)
    (wA : WFMap A) (wB : WFMap B)
    (hA : stem_find_entry A k = some eA) (hB : stem_find_entry B k = some eB)
    (hvA : ValWF A.value_size eA.value)
    (hvB : 0 < A.value_size →
      ∃ bs, eB.value = StoredVal.copyv bs ∧ bs.length = A.value_size) :
    (∀ m3, stdem_merge A B false = Except.ok m3 →
      stdem_get_value_ex m3 k = stdem_get_value_ex A k) ∧
    (∀ m3, stdem_merge A B true = Except.ok m3 →
      stdem_get_value_ex m3 k = stdem_get_value_ex B k) := by
  have hmemA := (find_eq_some_iff wA).1 hA
  have hmain : ∀ (ow : Bool) (m3 : EnumMap),
      stdem_merge A B ow = Except.ok m3 →
      ∃ mA, mergeLoop2 ow mA (entriesList B) = Except.ok m3 ∧ WFMap mA ∧
        mA.value_size = A.value_size ∧
        stem_find_entry mA k = some
          { enum_value := eA.enum_value
          , name := if (A.flags ||| B.flags) &&& STEM_FLAGS_NO_NAMES = 0
              then eA.name else none
          , value := eA.value } := by
    intro ow m3 hm
    unfold stdem_merge at hm
    by_cases hvsd : A.value_size ≠ B.value_size
    · rw [if_pos hvsd] at hm; cases hm
    · rw [if_neg hvsd] at hm
      rcases hc : stdem_create_ex (A.count + B.count) A.value_size
          (A.flags ||| B.flags) with e | m0
      · rw [hc] at hm; cases hm
      · rw [hc] at hm
        have h2 : (match copyLoop m0 (entriesList A) with
            | Except.error e => Except.error e
            | Except.ok mA => mergeLoop2 ow mA (entriesList B))
            = Except.ok m3 := hm
        rcases hl : copyLoop m0 (entriesList A) with e | mA
        · rw [hl] at h2; cases h2
        · rw [hl] at h2
          have hspec := create_spec hc
          have hro0 : m0.flags &&& STEM_FLAGS_READONLY = 0 := by
            rcases hE : entriesList A with _ | ⟨e1, es1⟩
            · rw [hE] at hmemA
              simp at hmemA
            · rw [hE] at hl
              exact copyLoop_cons_ro hl
          obtain ⟨mF, hF, wF, hcF, hvF, hflF, hlookF, hpresF⟩ :=
            copyLoop_spec (entriesList A) m0 hspec.1 hro0 wA.hdist
              (fun e _ => hspec.2.2.2.2.2.1 e.enum_value)
          rw [hF] at hl
          have hmA : mA = mF := (Except.ok.inj hl).symm
          subst hmA
          refine ⟨mA, h2, wF, hvF.trans hspec.2.2.1, ?_⟩
          have hlook := hlookF eA hmemA.1
          have hrep : stem_create_entry m0 eA.enum_value (valPtr eA.value)
              (valBytes eA.value) eA.name
              = { enum_value := eA.enum_value
                , name := if m0.flags &&& STEM_FLAGS_NO_NAMES = 0
                    then eA.name else none
                , value := eA.value } := by
            apply replayedEntry_eq
            rw [hspec.2.2.1]
            exact hvA
          rw [hrep, hspec.2.2.2.1] at hlook
          rw [← hmemA.2]
          exact hlook
  constructor
  · intro m3 hm
    obtain ⟨mA, h2, wA2, hvsA2, hlook⟩ := hmain false m3 hm
    have hpres := mergeLoop2_false_present h2 wA2 (by rw [hlook]; rfl)
    unfold stdem_get_value_ex
    rw [hpres, hlook, hA]
  · intro m3 hm
    obtain ⟨mA, h2, wA2, hvsA2, hlook⟩ := hmain true m3 hm
    have hmemB := (find_eq_some_iff wB).1 hB
    have hov := mergeLoop2_true_overwrite h2 wA2 wB.hdist hlook hmemB.1 hmemB.2
    unfold stdem_get_value_ex
    rw [hov, hB]
    have hveq : (mergeOverwriteEntry mA.value_size mA.flags eB
        { enum_value := eA.enum_value
        , name := if (A.flags ||| B.flags) &&& STEM_FLAGS_NO_NAMES = 0
            then eA.name else none
        , value := eA.value }).value = eB.value := by
      unfold mergeOverwriteEntry
      rw [hvsA2]
      by_cases hvsp : 0 < A.value_size
      · rw [if_pos hvsp]
        obtain ⟨bs, hbs, hlen⟩ := hvB hvsp
        rw [hbs]
        simp only [valBytes]
        rw [List.take_of_length_le (le_of_eq hlen)]
      · rw [if_neg hvsp]
    show (StemError.success, some (mergeOverwriteEntry mA.value_size mA.flags eB
        { enum_value := eA.enum_value
        , name := if (A.flags ||| B.flags) &&& STEM_FLAGS_NO_NAMES = 0
            then eA.name else none
        , value := eA.value }).value)
      = (StemError.success, some eB.value)
    rw [hveq]

end Stdem

namespace Stdem

/-- C6 witness: merging two concrete one-entry copy-mode maps sharing key 0
keeps map1's value without overwrite and takes map2's value with it. -/
theorem C6_merge_conflict_policy_witness :
    stdem_get_value_ex (mapOrEmpty (stdem_merge cm7 c6B false)) 0
        = stdem_get_value_ex cm7 0 ∧
    stdem_get_value_ex (mapOrEmpty (stdem_merge cm7 c6B true)) 0
        = stdem_get_value_ex c6B 0 := by
  have h := C6_merge_conflict_policy cm7 c6B 0
    { enum_value := 0, name := some [], value := StoredVal.copyv [7] }
    { enum_value := 0, name := none, value := StoredVal.copyv [9] }
    (reachable_wf (Reachable.associated cm7_base 0 1 [7] (some [])
      (Reachable.created 1 1 0 cm7_base rfl)))
    (reachable_wf (Reachable.associated cm7_base 0 1 [9] none
      (Reachable.created 1 1 0 cm7_base rfl)))
    (by decide) (by decide)
    (by unfold ValWF
        rw [if_neg (by decide)]
        exact Or.inr ⟨[7], rfl, by decide⟩)
    (fun _ => ⟨[9], rfl, by decide⟩)
  exact ⟨h.1 _ rfl, h.2 _ rfl⟩

/-- C7 counterexample: a reachable, populated copy-mode map whose single
entry carries the empty-string name does NOT round-trip through
serialization: the zero `name_len` deserializes as a NULL name, so
`get_name` returns NULL instead of the original empty string. -/
theorem C7_counterexample :
    Reachable cm7 ∧ 0 < cm7.count ∧ 0 < cm7.value_size ∧
    (stdem_deserialize (stdem_serialize cm7)).map (fun m2 => stdem_get_name_ex m2 0)
      = Except.ok (StemError.success, none) ∧
    stdem_get_name_ex cm7 0 = (StemError.success, some []) := by
  refine ⟨Reachable.associated cm7_base 0 1 [7] (some [])
    (Reachable.created 1 1 0 cm7_base rfl), by decide, by decide, ?_, by decide⟩
  rfl

/-- C7 (amended): for every populated, writable copy-mode map whose entries
hold proper owned value copies (the shapes produced by the API short of
NULL-value UB) and whose names are either absent or non-empty and shorter
than 65536 bytes, deserializing the serialized stream yields a map with the
same count and, for every present key, the same stored value bytes and the
same name.  (Empty names come back as NULL and longer names are truncated
mod 2^16 by the `uint16_t` name length, hence the name bounds.) -/
theorem C7_serialize_roundtrip (m : EnumMap) (w : WFMap m) (hpos : 0 < m.count)
    (hvs : 0 < m.value_size)
    (hro : m.flags &&& STEM_FLAGS_READONLY = 0)
    (hvals : ∀ e ∈ entriesList m,
      ∃ bs, e.value = StoredVal.copyv bs ∧ bs.length = m.value_size)
    (hnames : ∀ e ∈ entriesList m,
      e.name = none ∨ ∃ s, e.name = some s ∧ 0 < s.length ∧ s.length < 65536) :
    ∃ m2, stdem_deserialize (stdem_serialize m) = Except.ok m2 ∧
      m2.count = m.count ∧
      ∀ k, (stem_find_entry m k).isSome = true →
        stdem_get_value_ex m2 k = stdem_get_value_ex m k ∧
        stdem_get_name_ex m2 k = stdem_get_name_ex m k := by
  have hser : stdem_serialize m
      = Tok.u32 STEM_MAGIC :: Tok.u16 1 :: Tok.usize m.count ::
        Tok.usize m.value_size :: Tok.flagsT m.flags ::
        ((entriesList m).map (encodeEntry m.value_size)).flatten := by
    unfold stdem_serialize
    rfl
  rw [hser]
  have hdes : stdem_deserialize (Tok.u32 STEM_MAGIC :: Tok.u16 1 ::
        Tok.usize m.count :: Tok.usize m.value_size :: Tok.flagsT m.flags ::
        ((entriesList m).map (encodeEntry m.value_size)).flatten)
      = (if STEM_MAGIC ≠ STEM_MAGIC then Except.error StemError.invalidArg
        else if (1 : Nat) ≠ 1 then Except.error StemError.invalidArg
        else match stdem_create_ex m.count m.value_size m.flags with
          | Except.error e => Except.error e
          | Except.ok m0 => parseEntries m.count m0 m.value_size
              ((entriesList m).map (encodeEntry m.value_size)).flatten) := rfl
  rw [hdes]
  rw [if_neg (by simp), if_neg (by simp)]
  rcases hc : stdem_create_ex m.count m.value_size m.flags with e | m0
  · exfalso
    unfold stdem_create_ex at hc
    rw [if_neg (by omega)] at hc
    cases hc
  · have hspec := create_spec hc
    obtain ⟨mF, hF, wF, hcF, hvF, hflF, hlookF, hpresF⟩ :=
      parseEntries_encode hvs (entriesList m) m0 [] hspec.1 hspec.2.2.1
        (by rw [hspec.2.2.2.1]; exact hro) w.hdist
        (fun e _ => hspec.2.2.2.2.2.1 e.enum_value)
        hvals hnames
    rw [List.append_nil] at hF
    refine ⟨mF, ?_, ?_, ?_⟩
    · rw [show m.count = (entriesList m).length from w.hcount]
      exact hF
    · rw [hcF, hspec.2.1, w.hcount]
      simp
    · intro k hk
      obtain ⟨e, he⟩ := Option.isSome_iff_exists.1 hk
      have hmem := (find_eq_some_iff w).1 he
      have hkk : e.enum_value = k := hmem.2
      subst hkk
      have hlook := hlookF e hmem.1
      rw [hspec.2.2.2.1] at hlook
      constructor
      · unfold stdem_get_value_ex
        rw [hlook, he]
      · unfold stdem_get_name_ex
        rw [hflF, hspec.2.2.2.1]
        by_cases hNN : m.flags &&& STEM_FLAGS_NO_NAMES ≠ 0
        · rw [if_pos hNN, if_pos hNN]
        · rw [if_neg hNN, if_neg hNN, hlook, he]
          have hNN0 : m.flags &&& STEM_FLAGS_NO_NAMES = 0 := by omega
          simp [hNN0]

/-- C7 witness: the concrete one-entry map with the one-byte name "A"
round-trips: same count, same key-0 value and name. -/
theorem C7_serialize_roundtrip_witness :
    (stdem_deserialize (stdem_serialize wit7)).map stdem_count
      = Except.ok wit7.count ∧
    (stdem_deserialize (stdem_serialize wit7)).map (fun m2 => stdem_get_name_ex m2 0)
      = Except.ok (stdem_get_name_ex wit7 0) := by
  have hE : entriesList wit7
      = [{ enum_value := 0, name := some [65], value := StoredVal.copyv [7] }] := by
    decide
  have hvals : ∀ e ∈ entriesList wit7,
      ∃ bs, e.value = StoredVal.copyv bs ∧ bs.length = wit7.value_size := by
    intro e he
    rw [hE] at he
    simp at he
    subst he
    exact ⟨[7], rfl, by decide⟩
  have hnames : ∀ e ∈ entriesList wit7, e.name = none ∨
      ∃ s, e.name = some s ∧ 0 < s.length ∧ s.length < 65536 := by
    intro e he
    rw [hE] at he
    simp at he
    subst he
    exact Or.inr ⟨[65], rfl, by decide, by decide⟩
  obtain ⟨m2, hm2, hc, hl⟩ := C7_serialize_roundtrip wit7
    (reachable_wf (Reachable.associated cm7_base 0 1 [7] (some [65])
      (Reachable.created 1 1 0 cm7_base rfl)))
    (by decide) (by decide) (by decide) hvals hnames
  rw [hm2]
  refine ⟨?_, ?_⟩
  · show Except.ok (stdem_count m2) = Except.ok wit7.count
    rw [show stdem_count m2 = m2.count from rfl, hc]
  · show Except.ok (stdem_get_name_ex m2 0) = Except.ok (stdem_get_name_ex wit7 0)
    rw [(hl 0 (by decide)).2]

end Stdem
